import Mathlib

/-!
Verification of the request-orchestration and caching layer of the
morgen-claude-extension repository (src/src/morgen-api-client.js and
src/src/cache.js), as a shallow embedding in Lean 4.

Modelling conventions:
* JS `Map` becomes an association list `List (String × CacheEntry)` with JS
  `Map` semantics: `set` on an existing key updates the entry in place and
  keeps its insertion position, otherwise appends; iteration order is list
  order, so the "first key" is the list head.
* Timestamps (`Date.now()`, event start times, `start`/`end` range bounds)
  are integers counting milliseconds; the local clock is modelled as UTC.
  The source passes ISO strings over the wire and parses them with
  `new Date`; the model works directly with the parsed instant.
* Network I/O is an explicit oracle (`NetOracle`): each upstream endpoint is
  a field giving its response, `Except String` modelling a thrown error.
* JS truthiness is modelled field by field: an absent optional is falsy, an
  empty string is falsy, an array (even empty) is truthy, `0` is falsy where
  a number is tested.
* String helpers (`toLowerCase`, `includes`, `startsWith`, `Array.join`) are
  re-defined over `String.data` so that the kernel can evaluate them.
-/

/-- An upstream calendar event.  `title`/`description`/`location` are
optional in upstream payloads, hence `Option String`; `start` is the parsed
start instant in milliseconds. -/
structure Event where
  id : String
  title : Option String
  description : Option String
  location : Option String
  start : Int
  calendarId : String
  accountId : String
deriving DecidableEq, Repr

/-- An upstream calendar.  `accountId` is the owning account as used by
`getAllEventsInRange` (line 256); `account_id` mirrors the snake-case field
consulted first by `createEvent` (line 192: `calendar.account_id ||
calendar.accountId`). -/
structure Calendar where
  id : String
  accountId : String
  account_id : Option String
deriving DecidableEq, Repr

/-- A connected upstream account. -/
structure Account where
  id : String
deriving DecidableEq, Repr

/-- The values that flow through the client's cache.  `NULL` stands for the
JS `null` that `SimpleCache.get` returns for a missing or expired key; the
other constructors are the value shapes the client actually stores
(calendar lists, account lists, event lists, the week mapping). -/
inductive JSVal where
  | NULL
  | events (l : List Event)
  | calendars (l : List Calendar)
  | accounts (l : List Account)
  | week (w : List (String × List Event))
deriving DecidableEq, Repr

/-! ### Kernel-friendly string helpers (models of the JS string operations) -/

/-- Model of JS `String.prototype.toLowerCase` (ASCII-accurate). -/
def strLower (s : String) : String := ⟨s.data.map Char.toLower⟩

/-- Model of JS `s.includes(pat)`: `pat` occurs as a contiguous substring. -/
def strIncludes (s pat : String) : Bool := decide (pat.data <:+: s.data)

/-- Model of JS `s.startsWith(pat)`. -/
def strStarts (s pat : String) : Bool := pat.data.isPrefixOf s.data

/-- Model of JS `Array.prototype.join(sep)`. -/
def jsJoin (sep : String) : List String → String
  | [] => ""
  | x :: xs => xs.foldl (fun acc y => acc ++ sep ++ y) x

/-- Lexicographic order on char lists by code point (kernel-evaluable model
of the JS `<` comparison used by `Array.prototype.sort()` on keys). -/
def charListLt : List Char → List Char → Bool
  | [], [] => false
  | [], _ :: _ => true
  | _ :: _, [] => false
  | a :: as, b :: bs =>
    if a.val < b.val then true
    else if b.val < a.val then false
    else charListLt as bs

/-- String comparison used when sorting cache-key parameter names. -/
def strLtB (a b : String) : Bool := charListLt a.data b.data

/-! ### The bounded TTL cache (src/src/cache.js) -/

/-- One cache entry, as stored by `SimpleCache.set` (lines 22–26). -/
structure CacheEntry where
  value : JSVal
  expiresAt : Int
  createdAt : Int
deriving DecidableEq, Repr

/-- The `SimpleCache` state: the JS `Map` as an ordered association list,
plus the `maxSize` and `defaultTTL` configuration. -/
structure SimpleCache where
  entries : List (String × CacheEntry)
  maxSize : Nat
  defaultTTL : Nat
deriving DecidableEq, Repr

/-- JS `Map.prototype.set`: update in place if the key exists (keeping its
insertion position), otherwise append. -/
def mapSet (l : List (String × CacheEntry)) (k : String) (e : CacheEntry) :
    List (String × CacheEntry) :=
  if (l.map Prod.fst).contains k then
    l.map (fun kv => if kv.1 = k then (k, e) else kv)
  else
    l ++ [(k, e)]

/-- JS `Map.prototype.delete` (on a real `Map` at most one entry matches). -/
def mapDelete (l : List (String × CacheEntry)) (k : String) :
    List (String × CacheEntry) :=
  l.filter (fun kv => kv.1 ≠ k)

/-- The `SimpleCache` constructor (lines 2–5): `options.maxSize || 100` and
`options.defaultTTL || 300`, so a missing or zero option falls back to the
default. -/
def mkSimpleCache (ms dttl : Option Nat) : SimpleCache :=
  { entries := []
    maxSize := match ms with | none => 100 | some 0 => 100 | some (n+1) => n+1
    defaultTTL := match dttl with | none => 300 | some 0 => 300 | some (n+1) => n+1 }

/-- `SimpleCache.set` (lines 13–27): computes `expiresAt = now + ttl*1000`;
if the map is at (or beyond) `maxSize`, deletes the first (oldest-inserted)
key — on an empty map `keys().next().value` is `undefined` and the delete is
a no-op — then stores the new entry. -/
def SimpleCache.set (c : SimpleCache) (k : String) (v : JSVal) (ttl : Int)
    (now : Int) : SimpleCache :=
  let entry : CacheEntry := { value := v, expiresAt := now + ttl * 1000, createdAt := now }
  let entries1 :=
    if c.maxSize ≤ c.entries.length then
      match c.entries with
      | [] => c.entries
      | first :: _ => mapDelete c.entries first.1
    else c.entries
  { c with entries := mapSet entries1 k entry }

/-- `SimpleCache.get` (lines 29–43): returns JS `null` (`JSVal.NULL`) for a
missing key; lazily deletes and returns `null` for an expired one
(`now > expiresAt`); otherwise returns the stored value.  The second
component is the post-state (the lazy deletion is a side effect). -/
def SimpleCache.get (c : SimpleCache) (k : String) (now : Int) :
    JSVal × SimpleCache :=
  match c.entries.find? (fun kv => kv.1 = k) with
  | none => (JSVal.NULL, c)
  | some kv =>
    if kv.2.expiresAt < now then (JSVal.NULL, { c with entries := mapDelete c.entries k })
    else (kv.2.value, c)

/-- `SimpleCache.has` (lines 45–47): `get(key) !== null`, including the
lazy-expiry side effect of the inner `get`. -/
def SimpleCache.hasRes (c : SimpleCache) (k : String) (now : Int) :
    Bool × SimpleCache :=
  let r := c.get k now
  (r.1 ≠ JSVal.NULL, r.2)

/-- `SimpleCache.delete` (lines 49–51). -/
def SimpleCache.delete (c : SimpleCache) (k : String) : SimpleCache :=
  { c with entries := mapDelete c.entries k }

/-- `SimpleCache.clear` (lines 53–55). -/
def SimpleCache.clear (c : SimpleCache) : SimpleCache :=
  { c with entries := [] }

/-- `SimpleCache.cleanup` (lines 57–64): removes every entry with
`now > expiresAt`. -/
def SimpleCache.cleanup (c : SimpleCache) (now : Int) : SimpleCache :=
  { c with entries := c.entries.filter (fun kv => ¬ kv.2.expiresAt < now) }

/-- Stable insertion of one parameter into a key-sorted parameter list. -/
def insertSortedParam (p : String × String) :
    List (String × String) → List (String × String)
  | [] => [p]
  | q :: qs => if strLtB p.1 q.1 then p :: q :: qs else q :: insertSortedParam p qs

/-- Sort parameters by name (model of `Object.keys(params).sort()`). -/
def sortParams (l : List (String × String)) : List (String × String) :=
  l.foldr insertSortedParam []

/-- `SimpleCache.generateEventKey` (lines 89–96): sort the parameter names
lexicographically, render each as `name:value`, join with `|`, and return
`type:joined` (or just `type` when there are no parameters — the empty
string is falsy). -/
def generateEventKey (type : String) (params : List (String × String)) : String :=
  let sorted := jsJoin "|" ((sortParams params).map (fun p => p.1 ++ ":" ++ p.2))
  if sorted = "" then type else type ++ ":" ++ sorted

/-! ### The API client (src/src/morgen-api-client.js) -/

/-- The upstream HTTP API as an oracle: one field per endpoint the client
calls, with `Except String` standing for a thrown request error.
`eventsResp` receives the `accountId`, `calendarIds`, `start`, `end` query
parameters (each `Option` because `listEvents` only appends the ones that
are present). -/
structure NetOracle where
  calendarsResp : Except String (List Calendar)
  accountsResp : Except String (List Account)
  eventsResp : Option String → Option String → Option Int → Option Int →
    Except String (List Event)
  createResp : Except String Unit

/-- Reading a cached value back as a calendar list (`return cached` on a
hit; in every reachable state the value under `calendars` has this shape). -/
def extractCalendars : JSVal → List Calendar
  | JSVal.calendars l => l
  | _ => []

/-- Reading a cached value back as an account list. -/
def extractAccounts : JSVal → List Account
  | JSVal.accounts l => l
  | _ => []

/-- Reading a cached value back as an event list. -/
def extractEvents : JSVal → List Event
  | JSVal.events l => l
  | _ => []

/-- Reading a cached value back as the week mapping. -/
def extractWeek : JSVal → List (String × List Event)
  | JSVal.week w => w
  | _ => []

/-- The sentinel-title exclusion applied by `listEvents` (lines 156–159):
keep an event unless its title is exactly one of the two placeholders. -/
def filterSentinels (l : List Event) : List Event :=
  l.filter (fun e =>
    e.title != some "Busy (via Morgen)" && e.title != some "Untitled Event")

/-- `listCalendars` (lines 58–75): return the cached value under
`calendars` if present, otherwise fetch and cache for 3600 seconds. -/
def listCalendarsRun (c : SimpleCache) (now : Int) (net : NetOracle) :
    Except String (List Calendar) × SimpleCache :=
  let r := c.get "calendars" now
  if r.1 ≠ JSVal.NULL then (Except.ok (extractCalendars r.1), r.2)
  else
    match net.calendarsResp with
    | Except.error m => (Except.error m, r.2)
    | Except.ok cals => (Except.ok cals, r.2.set "calendars" (JSVal.calendars cals) 3600 now)

/-- `listAccounts` (lines 77–94): same shape under the key `accounts`. -/
def listAccountsRun (c : SimpleCache) (now : Int) (net : NetOracle) :
    Except String (List Account) × SimpleCache :=
  let r := c.get "accounts" now
  if r.1 ≠ JSVal.NULL then (Except.ok (extractAccounts r.1), r.2)
  else
    match net.accountsResp with
    | Except.error m => (Except.error m, r.2)
    | Except.ok accs => (Except.ok accs, r.2.set "accounts" (JSVal.accounts accs) 3600 now)

/-- The plain (non-"all") body of `listEvents` (lines 133–161): issue the
upstream query with whichever parameters are present and apply the
sentinel-title filter to the response.  Does not touch the cache. -/
def listEventsPlain (accountId calendarIds : Option String)
    (start fin : Option Int) (net : NetOracle) : Except String (List Event) :=
  match net.eventsResp accountId calendarIds start fin with
  | Except.error m => Except.error m
  | Except.ok evs => Except.ok (filterSentinels evs)

/-- Grouping step of `getAllEventsInRange` (lines 254–260): the distinct
account ids of the calendar list, in first-occurrence order (JS object key
insertion order). -/
def groupedAccountIds (cals : List Calendar) : List String :=
  cals.foldl (fun acc c => if acc.contains c.accountId then acc else acc ++ [c.accountId]) []

/-- The comma-joined calendar ids of one account (line 267). -/
def calendarIdsFor (cals : List Calendar) (a : String) : String :=
  jsJoin "," ((cals.filter (fun c => c.accountId == a)).map (fun c => c.id))

/-- The per-account query loop of `getAllEventsInRange` (lines 262–281):
for each grouped account, append its (already sentinel-filtered) events on
success, or record `Account <id>: <message>` and continue on failure. -/
def aggregateLoop (net : NetOracle) (cals : List Calendar) (start fin : Int) :
    List Event × List String :=
  (groupedAccountIds cals).foldl
    (fun acc a =>
      match listEventsPlain (some a) (some (calendarIdsFor cals a)) (some start) (some fin) net with
      | Except.ok evs => (acc.1 ++ evs, acc.2)
      | Except.error m => (acc.1, acc.2 ++ ["Account " ++ a ++ ": " ++ m]))
    ([], [])

/-- The tail of `getAllEventsInRange` (lines 262–288): run the loop, then
fail iff no events were merged and at least one error was recorded,
otherwise return the merged list. -/
def aggregateCore (net : NetOracle) (cals : List Calendar) (start fin : Int) :
    Except String (List Event) :=
  let r := aggregateLoop net cals start fin
  if r.1.isEmpty && !r.2.isEmpty then
    Except.error ("Failed to fetch events from all accounts:\n" ++ jsJoin "\n" r.2)
  else Except.ok r.1

/-- `getAllEventsInRange` (lines 241–289): fetch accounts (error if none),
fetch calendars (error if none), then aggregate per account.  The loop
itself never touches the cache; only the two metadata fetches do. -/
def getAllEventsInRange (c : SimpleCache) (now : Int) (net : NetOracle)
    (start fin : Int) : Except String (List Event) × SimpleCache :=
  match listAccountsRun c now net with
  | (Except.error m, c1) => (Except.error m, c1)
  | (Except.ok accs, c1) =>
    if accs.isEmpty then
      (Except.error "No calendar accounts configured. Please connect your calendars at https://platform.morgen.so", c1)
    else
      match listCalendarsRun c1 now net with
      | (Except.error m, c2) => (Except.error m, c2)
      | (Except.ok cals, c2) =>
        if cals.isEmpty then
          (Except.error "No calendars available. Please add calendars to your connected accounts.", c2)
        else (aggregateCore net cals start fin, c2)

/-- `listEvents` (lines 97–162).  When `calendarIds` is `"all"` or `"ALL"`:
with both range bounds it delegates to `getAllEventsInRange`; without them
it resolves the actual calendar ids (error if there are none) and issues
one query.  Otherwise it issues the plain query directly.  (If a joined
calendar-id string were itself literally `"all"`, the source would recurse
through `listEvents` again; the model inlines the plain body there, which
coincides except for that pathological id.) -/
def listEventsRun (accountId calendarIds : Option String)
    (start fin : Option Int) (c : SimpleCache) (now : Int) (net : NetOracle) :
    Except String (List Event) × SimpleCache :=
  if calendarIds == some "all" || calendarIds == some "ALL" then
    if start.isSome && fin.isSome then
      getAllEventsInRange c now net (start.getD 0) (fin.getD 0)
    else
      match listCalendarsRun c now net with
      | (Except.error m, c1) => (Except.error m, c1)
      | (Except.ok cals, c1) =>
        if cals.isEmpty then
          (Except.error "No calendars available. Please add calendars to your connected accounts.", c1)
        else
          (listEventsPlain accountId (some (jsJoin "," (cals.map (fun cal => cal.id)))) start fin net, c1)
  else (listEventsPlain accountId calendarIds start fin net, c)

/-- Local-midnight floor of a millisecond instant (model of
`today.setHours(0,0,0,0)` with the local clock taken as UTC). -/
def dayStart (now : Int) : Int := (now.fdiv 86400000) * 86400000

/-- `getTodayEvents` (lines 341–367): cached under `events:today` (TTL
120s); range is [midnight today, midnight tomorrow); on any internal error
it degrades to the empty list without caching. -/
def getTodayEventsRun (c : SimpleCache) (now : Int) (net : NetOracle) :
    List Event × SimpleCache :=
  let r := c.get "events:today" now
  if r.1 ≠ JSVal.NULL then (extractEvents r.1, r.2)
  else
    match getAllEventsInRange r.2 now net (dayStart now) (dayStart now + 86400000) with
    | (Except.error _, c2) => ([], c2)
    | (Except.ok evs, c2) => (evs, c2.set "events:today" (JSVal.events evs) 120 now)

/-- `dayNames` of `getWeekEvents` (line 405), indexed by `Date.getDay()`. -/
def dayNamesJS : List String :=
  ["Sunday", "Monday", "Tuesday", "Wednesday", "Thursday", "Friday", "Saturday"]

/-- The insertion order of the `eventsByDay` object literal (lines 395–403). -/
def weekKeys : List String :=
  ["Monday", "Tuesday", "Wednesday", "Thursday", "Friday", "Saturday", "Sunday"]

/-- `Date.prototype.getDay` on a millisecond instant (local clock taken as
UTC; day 0 of the epoch, 1970-01-01, was a Thursday, index 4). -/
def jsGetDay (t : Int) : Nat := ((t.fdiv 86400000 + 4).emod 7).toNat

/-- The weekday name `dayNames[eventDate.getDay()]` of an instant. -/
def weekdayName (t : Int) : String := dayNamesJS.getD (jsGetDay t) ""

/-- The all-empty week mapping (the object literal of lines 395–403, also
returned verbatim by the catch block of lines 422–430). -/
def emptyWeek : List (String × List Event) := weekKeys.map (fun d => (d, []))

/-- One iteration of the bucketing loop (lines 407–413): push the event
onto its weekday bucket if that key exists (`if (eventsByDay[dayName])`),
otherwise drop it. -/
def pushDay (m : List (String × List Event)) (d : String) (e : Event) :
    List (String × List Event) :=
  if (m.map Prod.fst).contains d then
    m.map (fun kv => if kv.1 = d then (kv.1, kv.2 ++ [e]) else kv)
  else m

/-- The full bucketing loop of `getWeekEvents` over the aggregated list. -/
def bucketWeek (evs : List Event) : List (String × List Event) :=
  evs.foldl (fun m e => pushDay m (weekdayName e.start) e) emptyWeek

/-- The result shape of `getWeekEvents` as a function of the aggregation
outcome: buckets on success, the all-empty mapping on failure (the catch
block swallows the error instead of propagating it). -/
def getWeekEventsCore (agg : Except String (List Event)) :
    List (String × List Event) :=
  match agg with
  | Except.error _ => emptyWeek
  | Except.ok evs => bucketWeek evs

/-- `getWeekEvents` (lines 369–432): cached under `events:week` (TTL 120s);
computes Monday 00:00 of the current week (`Sunday` → offset −6), queries
[Monday, Monday+7d), buckets by weekday name, and degrades to the all-empty
mapping on failure. -/
def getWeekEventsRun (c : SimpleCache) (now : Int) (net : NetOracle) :
    List (String × List Event) × SimpleCache :=
  let r := c.get "events:week" now
  if r.1 ≠ JSVal.NULL then (extractWeek r.1, r.2)
  else
    let today := dayStart now
    let dow : Int := jsGetDay today
    let daysToMonday : Int := if dow = 0 then -6 else 1 - dow
    let monday := today + daysToMonday * 86400000
    let sunday := monday + 7 * 86400000
    match getAllEventsInRange r.2 now net monday sunday with
    | (Except.error _, c2) => (emptyWeek, c2)
    | (Except.ok evs, c2) =>
      let w := bucketWeek evs
      (w, c2.set "events:week" (JSVal.week w) 120 now)

/-! ### searchEvents (lines 291–338) -/

/-- The options object of `searchEvents`.  `max_results` is modelled as a
nonnegative count (the tool surface passes a positive integer; negative JS
`slice` bounds are outside the model). -/
structure SearchOptions where
  start_date : Option Int
  end_date : Option Int
  max_results : Option Nat
deriving DecidableEq, Repr

/-- `options.max_results || 20` (line 327): absent or zero falls back to 20. -/
def effMaxResults : Option Nat → Nat
  | none => 20
  | some 0 => 20
  | some (n+1) => n+1

/-- `SimpleCache.hashSearchOptions` (lines 99–101) canonicalises the options
object with `JSON.stringify`.  The model renders the present fields in a
fixed order; only injectivity on the option fields matters to the claims,
not the exact JSON text.  (In the source the replacer array filters keys but
does not reorder them, so the "sorted" intent is not actually realised —
harmless, since same-shaped option objects still hash identically.) -/
def hashSearchOptions (o : SearchOptions) : String :=
  (match o.start_date with | none => "" | some s => "start_date:" ++ toString s ++ ";")
    ++ (match o.end_date with | none => "" | some e => "end_date:" ++ toString e ++ ";")
    ++ (match o.max_results with | none => "" | some m => "max_results:" ++ toString m ++ ";")

/-- The filter-and-truncate core of `searchEvents` (lines 310–328): drop
sentinel-titled events, keep events whose lowercased title, description or
location contains the lowercased query, and take the first
`max_results || 20`. -/
def searchEventsCore (query : String) (mr : Option Nat) (evs : List Event) :
    List Event :=
  let ql := strLower query
  let filtered := evs.filter (fun e =>
    (e.title != some "Busy (via Morgen)" && e.title != some "Untitled Event")
      && (strIncludes (strLower (e.title.getD "")) ql
        || strIncludes (strLower (e.description.getD "")) ql
        || strIncludes (strLower (e.location.getD "")) ql))
  filtered.take (effMaxResults mr)

/-- `searchEvents` (lines 291–338): check the `search:<query>:<hash>` key;
on a miss, default the range to [now − 30 days, now + 30 days), aggregate,
filter/truncate, cache the result for 30 seconds.  Aggregation errors
propagate. -/
def searchEventsRun (query : String) (o : SearchOptions) (c : SimpleCache)
    (now : Int) (net : NetOracle) : Except String (List Event) × SimpleCache :=
  let key := "search:" ++ query ++ ":" ++ hashSearchOptions o
  let r := c.get key now
  if r.1 ≠ JSVal.NULL then (Except.ok (extractEvents r.1), r.2)
  else
    let s := o.start_date.getD (now - 2592000000)
    let f := o.end_date.getD (now + 2592000000)
    match getAllEventsInRange r.2 now net s f with
    | (Except.error m, c2) => (Except.error m, c2)
    | (Except.ok evs, c2) =>
      let results := searchEventsCore query o.max_results evs
      (Except.ok results, c2.set key (JSVal.events results) 30 now)

/-! ### getEvents (lines 434–487) -/

/-- The `calendar_ids` argument as it arrives from callers: the supported
comma-separated string, or the structured-array caller mistake. -/
inductive CalIds where
  | str (s : String)
  | arr (l : List String)
deriving DecidableEq, Repr

/-- The options object of `getEvents`. -/
structure GetEventsOptions where
  account_id : Option String
  start_date : Option Int
  end_date : Option Int
  calendar_ids : Option CalIds
deriving DecidableEq, Repr

/-- JS truthiness of the `calendar_ids` value: absent and the empty string
are falsy; any array (even empty) is truthy. -/
def calIdsTruthy : Option CalIds → Bool
  | none => false
  | some (CalIds.str s) => s ≠ ""
  | some (CalIds.arr _) => true

/-- JS truthiness of an optional string. -/
def optStrTruthy : Option String → Bool
  | none => false
  | some s => s ≠ ""

/-- Template-literal rendering of `calendar_ids || 'all'` inside the cache
key (line 451): a falsy value becomes `all`; an array joins with commas. -/
def calIdsToKeyStr : Option CalIds → String
  | none => "all"
  | some (CalIds.str s) => if s = "" then "all" else s
  | some (CalIds.arr l) => jsJoin "," l

/-- Template-literal rendering of an optional string (`undefined` prints as
the literal text `undefined`). -/
def optStrKey : Option String → String
  | none => "undefined"
  | some s => s

/-- Template-literal rendering of an optional instant. -/
def optIntKey : Option Int → String
  | none => "undefined"
  | some n => toString n

/-- The cache key of `getEvents` (lines 447–452). -/
def getEventsKey (o : GetEventsOptions) : String :=
  generateEventKey "events:range"
    [("account_id", optStrKey o.account_id),
     ("start_date", optIntKey o.start_date),
     ("end_date", optIntKey o.end_date),
     ("calendar_ids", calIdsToKeyStr o.calendar_ids)]

/-- The control-flow outcome of one `getEvents` call, before any network
interpretation: the three thrown validations, a cache hit, or one of the
two query shapes. -/
inductive GERoute where
  | errRequired
  | errAmbiguous
  | cached (v : JSVal)
  | fanout (s f : Int)
  | errNotString
  | single (acc : Option String) (s f : Int) (ids : String)
deriving DecidableEq, Repr

/-- The decision structure of `getEvents` (lines 435–477), in source order:
required-field check, the lowercase-only `"all"` ambiguity check, cache
lookup, then the `"all"`/`"ALL"` fan-out test, then the string-type
validation. -/
def getEventsRoute (o : GetEventsOptions) (c : SimpleCache) (now : Int) :
    GERoute × SimpleCache :=
  if ¬ (o.start_date.isSome && o.end_date.isSome && calIdsTruthy o.calendar_ids) then
    (GERoute.errRequired, c)
  else if ¬ optStrTruthy o.account_id && o.calendar_ids == some (CalIds.str "all") then
    (GERoute.errAmbiguous, c)
  else
    let r := c.get (getEventsKey o) now
    if r.1 ≠ JSVal.NULL then (GERoute.cached r.1, r.2)
    else if ¬ calIdsTruthy o.calendar_ids
        || o.calendar_ids == some (CalIds.str "all")
        || o.calendar_ids == some (CalIds.str "ALL") then
      (GERoute.fanout (o.start_date.getD 0) (o.end_date.getD 0), r.2)
    else
      match o.calendar_ids with
      | some (CalIds.str s) =>
        (GERoute.single o.account_id (o.start_date.getD 0) (o.end_date.getD 0) s, r.2)
      | _ => (GERoute.errNotString, r.2)

/-- Whether a route reaches the network when interpreted. -/
def routeUsesNet : GERoute → Bool
  | GERoute.fanout _ _ => true
  | GERoute.single _ _ _ _ => true
  | _ => false

/-- `getEvents` (lines 434–487): interpret the route; query results are
cached for 60 seconds under the derived key; errors propagate. -/
def getEventsRun (o : GetEventsOptions) (c : SimpleCache) (now : Int)
    (net : NetOracle) : Except String (List Event) × SimpleCache :=
  match getEventsRoute o c now with
  | (GERoute.errRequired, c1) =>
    (Except.error "start_date, end_date, account_id, and calendar_ids are required", c1)
  | (GERoute.errAmbiguous, c1) =>
    (Except.error "account_id is required when calendar_ids is \"all\"", c1)
  | (GERoute.errNotString, c1) =>
    (Except.error "calendar_ids must be a string. Use \"all\" for all calendars or comma-separated IDs like \"cal-1,cal-2\"", c1)
  | (GERoute.cached v, c1) => (Except.ok (extractEvents v), c1)
  | (GERoute.fanout s f, c1) =>
    match getAllEventsInRange c1 now net s f with
    | (Except.error m, c2) => (Except.error m, c2)
    | (Except.ok evs, c2) => (Except.ok evs, c2.set (getEventsKey o) (JSVal.events evs) 60 now)
  | (GERoute.single a s f ids, c1) =>
    match listEventsRun a (some ids) (some s) (some f) c1 now net with
    | (Except.error m, c2) => (Except.error m, c2)
    | (Except.ok evs, c2) => (Except.ok evs, c2.set (getEventsKey o) (JSVal.events evs) 60 now)

/-! ### createEvent (lines 164–212) -/

/-- The `createEvent` input.  `start_date`/`end_date` are the parsed
instants (`none` models a missing or empty — falsy — field); `title` and
`calendar_id` are falsy exactly when empty. -/
structure EventInput where
  title : String
  start_date : Option Int
  end_date : Option Int
  calendar_id : String
  description : Option String
  timezone : Option String
deriving DecidableEq, Repr

/-- The body `POST /events/create` receives (lines 187–195). -/
structure MorgenEventData where
  title : String
  description : String
  start : Int
  duration : String
  accountId : String
  calendarId : String
  timeZone : String
deriving DecidableEq, Repr

/-- JS `Math.round((endTime - startTime) / (1000 * 60))` on an exact
millisecond difference: round half toward positive infinity, i.e.
`floor(d/60000 + 1/2)`. -/
def jsRoundMin (d : Int) : Int := (2 * d + 60000) / 120000

/-- The required-field loop of `createEvent` (lines 166–172): first falsy
field among `title`, `start_date`, `end_date`, `calendar_id` wins. -/
def requiredFieldError (e : EventInput) : Option String :=
  if e.title = "" then some "Missing required field: title"
  else if e.start_date.isNone then some "Missing required field: start_date"
  else if e.end_date.isNone then some "Missing required field: end_date"
  else if e.calendar_id = "" then some "Missing required field: calendar_id"
  else none

/-- Payload assembly of `createEvent` (lines 174–195): duration in rounded
minutes suffixed `m`; the owning account resolved from the calendar list
(`account_id || accountId`); `timezone || 'UTC'`. -/
def buildMorgenEvent (e : EventInput) (cals : List Calendar) :
    Except String MorgenEventData :=
  let durationMinutes := jsRoundMin (e.end_date.getD 0 - e.start_date.getD 0)
  match cals.find? (fun cal => cal.id == e.calendar_id) with
  | none => Except.error ("Calendar with ID " ++ e.calendar_id ++ " not found")
  | some cal =>
    Except.ok
      { title := e.title
        description := e.description.getD ""
        start := e.start_date.getD 0
        duration := toString durationMinutes ++ "m"
        accountId := match cal.account_id with
          | some s => if s = "" then cal.accountId else s
          | none => cal.accountId
        calendarId := e.calendar_id
        timeZone := match e.timezone with
          | some t => if t = "" then "UTC" else t
          | none => "UTC" }

/-- `invalidateEventCaches` (lines 215–228): delete every key beginning
with `events:` or `search:` (collect-then-delete equals one filter pass). -/
def invalidateEventCaches (c : SimpleCache) : SimpleCache :=
  { c with entries := c.entries.filter (fun kv =>
      ¬ (strStarts kv.1 "events:" || strStarts kv.1 "search:")) }

/-- `createEvent` (lines 164–212): validate required fields (before any
network or cache access), resolve calendars through the cached
`listCalendars`, assemble the payload, post it, and on success invalidate
the event/search cache namespaces.  The result carries the request body
that was sent upstream. -/
def createEventRun (e : EventInput) (c : SimpleCache) (now : Int)
    (net : NetOracle) : Except String MorgenEventData × SimpleCache :=
  match requiredFieldError e with
  | some m => (Except.error m, c)
  | none =>
    match listCalendarsRun c now net with
    | (Except.error m, c1) => (Except.error m, c1)
    | (Except.ok cals, c1) =>
      match buildMorgenEvent e cals with
      | Except.error m => (Except.error m, c1)
      | Except.ok body =>
        match net.createResp with
        | Except.error m => (Except.error m, c1)
        | Except.ok _ => (Except.ok body, invalidateEventCaches c1)

/-! ### Spec-side characterisations -/

/-- An event is free of the two sentinel placeholder titles. -/
def noSentinelB (e : Event) : Bool :=
  e.title != some "Busy (via Morgen)" && e.title != some "Untitled Event"

/-- Every event of a list is sentinel-free. -/
def eventsClean (l : List Event) : Bool := l.all noSentinelB

/-- Sentinel-freedom of an operation result (errors are vacuously clean). -/
def eventsCleanE : Except String (List Event) → Bool
  | Except.error _ => true
  | Except.ok l => eventsClean l

/-- Every bucket of a week mapping is sentinel-free. -/
def bucketsClean (w : List (String × List Event)) : Bool :=
  w.all (fun kv => eventsClean kv.2)

/-- Sentinel-freedom of a cached value. -/
def valClean : JSVal → Bool
  | JSVal.events l => eventsClean l
  | JSVal.week w => bucketsClean w
  | _ => true

/-- The reachable-cache invariant: every stored value is sentinel-free. -/
def cacheCleanB (c : SimpleCache) : Bool :=
  c.entries.all (fun kv => valClean kv.2.value)

/-- The one per-account query of the fan-out loop. -/
def perAccountQuery (net : NetOracle) (cals : List Calendar) (start fin : Int)
    (a : String) : Except String (List Event) :=
  listEventsPlain (some a) (some (calendarIdsFor cals a)) (some start) (some fin) net

/-- Declarative merged result of the fan-out: concatenation, in account
order, of the successful queries' events. -/
def specMerged (net : NetOracle) (cals : List Calendar) (start fin : Int) :
    List Event :=
  (groupedAccountIds cals).flatMap (fun a =>
    match perAccountQuery net cals start fin a with
    | Except.ok evs => evs
    | Except.error _ => [])

/-- Declarative error records of the fan-out: one `Account <id>: <msg>`
line per failed account, in account order. -/
def specErrors (net : NetOracle) (cals : List Calendar) (start fin : Int) :
    List String :=
  (groupedAccountIds cals).filterMap (fun a =>
    match perAccountQuery net cals start fin a with
    | Except.ok _ => none
    | Except.error m => some ("Account " ++ a ++ ": " ++ m))

/-- The search predicate in the spec's words: the lowercased query occurs
in the lowercased title, description or location (any one field). -/
def specSearchMatch (query : String) (e : Event) : Bool :=
  strIncludes (strLower (e.title.getD "")) (strLower query)
    || strIncludes (strLower (e.description.getD "")) (strLower query)
    || strIncludes (strLower (e.location.getD "")) (strLower query)

/-! ### Helper lemmas: sentinel-freedom and cache preservation -/

theorem filterSentinels_eq (l : List Event) :
    filterSentinels l = l.filter noSentinelB := rfl

theorem filterSentinels_clean (l : List Event) :
    eventsClean (filterSentinels l) = true := by
  rw [filterSentinels_eq, eventsClean, List.all_eq_true]
  intro e he
  exact List.of_mem_filter he

theorem eventsClean_append (a b : List Event) :
    eventsClean (a ++ b) = (eventsClean a && eventsClean b) := by
  simp [eventsClean]

theorem eventsClean_mem {l : List Event} (h : eventsClean l = true)
    {e : Event} (he : e ∈ l) : noSentinelB e = true := by
  simp [eventsClean, List.all_eq_true] at h
  exact h e he

theorem cacheClean_mem {c : SimpleCache} (h : cacheCleanB c = true)
    {kv : String × CacheEntry} (hm : kv ∈ c.entries) :
    valClean kv.2.value = true := by
  rw [cacheCleanB, List.all_eq_true] at h
  exact h kv hm

theorem get_val_clean {c : SimpleCache} (h : cacheCleanB c = true)
    (k : String) (now : Int) : valClean (c.get k now).1 = true := by
  unfold SimpleCache.get
  cases hf : c.entries.find? (fun kv => kv.1 = k) with
  | none => simp [valClean]
  | some kv =>
    by_cases hex : kv.2.expiresAt < now
    · simp [hex, valClean]
    · simp [hex]
      exact cacheClean_mem h (List.mem_of_find?_eq_some hf)

theorem get_post_clean {c : SimpleCache} (h : cacheCleanB c = true)
    (k : String) (now : Int) : cacheCleanB (c.get k now).2 = true := by
  unfold SimpleCache.get
  cases hf : c.entries.find? (fun kv => kv.1 = k) with
  | none => simpa using h
  | some kv =>
    by_cases hex : kv.2.expiresAt < now
    · simp only [hex, if_true]
      rw [cacheCleanB, List.all_eq_true]
      intro x hx
      exact cacheClean_mem h (List.mem_of_mem_filter hx)
    · simpa [hex] using h

theorem mem_mapSet {l : List (String × CacheEntry)} {k : String}
    {e : CacheEntry} {kv : String × CacheEntry} (h : kv ∈ mapSet l k e) :
    kv = (k, e) ∨ kv ∈ l := by
  rw [mapSet] at h
  by_cases hc : (l.map Prod.fst).contains k = true
  · rw [if_pos hc] at h
    rcases List.mem_map.mp h with ⟨x, hx, hfx⟩
    by_cases hk : x.1 = k
    · left; rw [if_pos hk] at hfx; exact hfx.symm
    · right; rw [if_neg hk] at hfx; rw [← hfx]; exact hx
  · rw [if_neg hc] at h
    rcases List.mem_append.mp h with h1 | h1
    · right; exact h1
    · left; simpa using h1

theorem set_clean {c : SimpleCache} (h : cacheCleanB c = true)
    (v : JSVal) (hv : valClean v = true) (k : String) (ttl now : Int) :
    cacheCleanB (c.set k v ttl now) = true := by
  rw [SimpleCache.set, cacheCleanB, List.all_eq_true]
  intro kv hkv
  rcases mem_mapSet hkv with h1 | h1
  · rw [h1]; exact hv
  · refine cacheClean_mem h ?_
    by_cases hs : c.maxSize ≤ c.entries.length
    · rw [if_pos hs] at h1
      cases hen : c.entries with
      | nil => rw [hen] at h1; exact absurd h1 (List.not_mem_nil kv)
      | cons first rest =>
        rw [hen] at h1
        exact List.mem_of_mem_filter h1
    · rw [if_neg hs] at h1
      exact h1

theorem extractEvents_clean {v : JSVal} (h : valClean v = true) :
    eventsClean (extractEvents v) = true := by
  cases v <;> simpa [extractEvents, valClean, eventsClean] using h

theorem extractWeek_clean {v : JSVal} (h : valClean v = true) :
    bucketsClean (extractWeek v) = true := by
  cases v <;> simpa [extractWeek, valClean, bucketsClean] using h

theorem listCalendarsRun_clean {c : SimpleCache} (h : cacheCleanB c = true)
    (now : Int) (net : NetOracle) :
    cacheCleanB (listCalendarsRun c now net).2 = true := by
  rw [listCalendarsRun]
  by_cases hv : (c.get "calendars" now).1 ≠ JSVal.NULL
  · simpa [hv] using get_post_clean h "calendars" now
  · simp only [hv, if_false]
    cases net.calendarsResp with
    | error m => exact get_post_clean h "calendars" now
    | ok cals =>
      exact set_clean (get_post_clean h "calendars" now) (JSVal.calendars cals) (by rfl) _ _ _

theorem listAccountsRun_clean {c : SimpleCache} (h : cacheCleanB c = true)
    (now : Int) (net : NetOracle) :
    cacheCleanB (listAccountsRun c now net).2 = true := by
  rw [listAccountsRun]
  by_cases hv : (c.get "accounts" now).1 ≠ JSVal.NULL
  · simpa [hv] using get_post_clean h "accounts" now
  · simp only [hv, if_false]
    cases net.accountsResp with
    | error m => exact get_post_clean h "accounts" now
    | ok accs =>
      exact set_clean (get_post_clean h "accounts" now) (JSVal.accounts accs) (by rfl) _ _ _

theorem listEventsPlain_clean (accountId calendarIds : Option String)
    (start fin : Option Int) (net : NetOracle) :
    eventsCleanE (listEventsPlain accountId calendarIds start fin net) = true := by
  rw [listEventsPlain]
  cases net.eventsResp accountId calendarIds start fin with
  | error m => rfl
  | ok evs => exact filterSentinels_clean evs

/-- The fan-out loop computes exactly the declarative merged list and error
records. -/
theorem aggregateLoop_eq (net : NetOracle) (cals : List Calendar)
    (start fin : Int) :
    aggregateLoop net cals start fin =
      (specMerged net cals start fin, specErrors net cals start fin) := by
  rw [aggregateLoop, specMerged, specErrors]
  have main : ∀ (as : List String) (acc : List Event × List String),
      as.foldl
        (fun acc a =>
          match listEventsPlain (some a) (some (calendarIdsFor cals a)) (some start) (some fin) net with
          | Except.ok evs => (acc.1 ++ evs, acc.2)
          | Except.error m => (acc.1, acc.2 ++ ["Account " ++ a ++ ": " ++ m]))
        acc =
      (acc.1 ++ as.flatMap (fun a =>
          match perAccountQuery net cals start fin a with
          | Except.ok evs => evs
          | Except.error _ => []),
       acc.2 ++ as.filterMap (fun a =>
          match perAccountQuery net cals start fin a with
          | Except.ok _ => none
          | Except.error m => some ("Account " ++ a ++ ": " ++ m))) := by
    intro as
    induction as with
    | nil => intro acc; simp
    | cons a as ih =>
      intro acc
      rw [List.foldl_cons, ih]
      cases hq : perAccountQuery net cals start fin a with
      | ok evs =>
        rw [perAccountQuery] at hq
        simp [hq, List.flatMap_cons, List.filterMap_cons, perAccountQuery]
      | error m =>
        rw [perAccountQuery] at hq
        simp [hq, List.flatMap_cons, List.filterMap_cons, perAccountQuery]
  simpa using main (groupedAccountIds cals) ([], [])

theorem specMerged_clean (net : NetOracle) (cals : List Calendar)
    (start fin : Int) : eventsClean (specMerged net cals start fin) = true := by
  rw [specMerged, eventsClean, List.all_eq_true]
  intro e he
  rcases List.mem_flatMap.mp he with ⟨a, _, hea⟩
  cases hq : perAccountQuery net cals start fin a with
  | ok evs =>
    rw [hq] at hea
    have hclean : eventsCleanE (Except.ok evs : Except String (List Event)) = true := by
      rw [← hq, perAccountQuery]
      exact listEventsPlain_clean _ _ _ _ _
    exact eventsClean_mem hclean hea
  | error m => rw [hq] at hea; exact absurd hea (List.not_mem_nil e)

theorem aggregateCore_clean (net : NetOracle) (cals : List Calendar)
    (start fin : Int) :
    eventsCleanE (aggregateCore net cals start fin) = true := by
  rw [aggregateCore, aggregateLoop_eq]
  by_cases hc : (specMerged net cals start fin).isEmpty && !(specErrors net cals start fin).isEmpty
  · simp only [hc, if_true]; rfl
  · simp only [hc, if_false]
    exact specMerged_clean net cals start fin

theorem getAllEventsInRange_clean {c : SimpleCache} (h : cacheCleanB c = true)
    (now : Int) (net : NetOracle) (start fin : Int) :
    eventsCleanE (getAllEventsInRange c now net start fin).1 = true
      ∧ cacheCleanB (getAllEventsInRange c now net start fin).2 = true := by
  rw [getAllEventsInRange]
  have ha := listAccountsRun_clean h now net
  cases hacc : listAccountsRun c now net with
  | mk r1 c1 =>
    rw [hacc] at ha
    cases r1 with
    | error m => exact ⟨rfl, ha⟩
    | ok accs =>
      by_cases hae : accs.isEmpty
      · simp only [hae, if_true]; exact ⟨rfl, ha⟩
      · simp only [hae, if_false]
        have hcals := listCalendarsRun_clean ha now net
        cases hcal : listCalendarsRun c1 now net with
        | mk r2 c2 =>
          rw [hcal] at hcals
          cases r2 with
          | error m => exact ⟨rfl, hcals⟩
          | ok cals =>
            by_cases hce : cals.isEmpty
            · simp only [hce, if_true]; exact ⟨rfl, hcals⟩
            · simp only [hce, if_false]
              exact ⟨aggregateCore_clean net cals start fin, hcals⟩


theorem listEventsRun_clean {c : SimpleCache} (h : cacheCleanB c = true)
    (accountId calendarIds : Option String) (start fin : Option Int)
    (now : Int) (net : NetOracle) :
    eventsCleanE (listEventsRun accountId calendarIds start fin c now net).1 = true
      ∧ cacheCleanB (listEventsRun accountId calendarIds start fin c now net).2 = true := by
  rw [listEventsRun]
  by_cases hall : (calendarIds == some "all" || calendarIds == some "ALL") = true
  · rw [if_pos hall]
    by_cases hse : (start.isSome && fin.isSome) = true
    · rw [if_pos hse]
      exact getAllEventsInRange_clean h now net _ _
    · rw [if_neg hse]
      have hc := listCalendarsRun_clean h now net
      cases hcal : listCalendarsRun c now net with
      | mk r1 c1 =>
        rw [hcal] at hc
        cases r1 with
        | error m => exact ⟨rfl, hc⟩
        | ok cals =>
          by_cases hce : cals.isEmpty
          · simp only [hce, if_true]; exact ⟨rfl, hc⟩
          · simp only [hce, if_false]
            exact ⟨listEventsPlain_clean _ _ _ _ _, hc⟩
  · rw [if_neg hall]
    exact ⟨listEventsPlain_clean _ _ _ _ _, h⟩

theorem getTodayEventsRun_clean {c : SimpleCache} (h : cacheCleanB c = true)
    (now : Int) (net : NetOracle) :
    eventsClean (getTodayEventsRun c now net).1 = true
      ∧ cacheCleanB (getTodayEventsRun c now net).2 = true := by
  rw [getTodayEventsRun]
  have hp := get_post_clean h "events:today" now
  by_cases hv : (c.get "events:today" now).1 ≠ JSVal.NULL
  · rw [if_pos hv]
    exact ⟨extractEvents_clean (get_val_clean h "events:today" now), hp⟩
  · rw [if_neg hv]
    have hagg := getAllEventsInRange_clean hp now net (dayStart now) (dayStart now + 86400000)
    cases hga : getAllEventsInRange (c.get "events:today" now).2 now net (dayStart now) (dayStart now + 86400000) with
    | mk r c2 =>
      rw [hga] at hagg
      cases r with
      | error m => exact ⟨rfl, hagg.2⟩
      | ok evs => exact ⟨hagg.1, set_clean hagg.2 (JSVal.events evs) hagg.1 _ _ _⟩

theorem pushDay_clean {m : List (String × List Event)}
    (hm : bucketsClean m = true) {e : Event} (he : noSentinelB e = true)
    (d : String) : bucketsClean (pushDay m d e) = true := by
  rw [pushDay]
  by_cases hc : ((m.map Prod.fst).contains d) = true
  · rw [if_pos hc]
    rw [bucketsClean, List.all_eq_true]
    intro kv hkv
    rcases List.mem_map.mp hkv with ⟨x, hx, hfx⟩
    rw [bucketsClean, List.all_eq_true] at hm
    have hxc := hm x hx
    by_cases hk : x.1 = d
    · rw [if_pos hk] at hfx
      rw [← hfx]
      show eventsClean (x.2 ++ [e]) = true
      rw [eventsClean_append, hxc, Bool.true_and, eventsClean, List.all_eq_true]
      intro y hy
      rw [List.mem_singleton.mp hy]
      exact he
    · rw [if_neg hk] at hfx
      rw [← hfx]
      exact hxc
  · rw [if_neg hc]; exact hm

theorem emptyWeek_clean : bucketsClean emptyWeek = true := by decide

theorem bucketWeek_clean {evs : List Event} (h : eventsClean evs = true) :
    bucketsClean (bucketWeek evs) = true := by
  rw [bucketWeek]
  have main : ∀ (l : List Event), eventsClean l = true →
      ∀ (m : List (String × List Event)), bucketsClean m = true →
      bucketsClean (l.foldl (fun m e => pushDay m (weekdayName e.start) e) m) = true := by
    intro l
    induction l with
    | nil => intro _ m hm; exact hm
    | cons e es ih =>
      intro hl m hm
      rw [List.foldl_cons]
      have he : noSentinelB e = true := eventsClean_mem hl (List.mem_cons_self e es)
      have hes : eventsClean es = true := by
        rw [eventsClean, List.all_eq_true]
        intro x hx
        exact eventsClean_mem hl (List.mem_cons_of_mem e hx)
      exact ih hes _ (pushDay_clean hm he _)
  exact main evs h emptyWeek emptyWeek_clean

theorem getWeekEventsRun_clean {c : SimpleCache} (h : cacheCleanB c = true)
    (now : Int) (net : NetOracle) :
    bucketsClean (getWeekEventsRun c now net).1 = true
      ∧ cacheCleanB (getWeekEventsRun c now net).2 = true := by
  rw [getWeekEventsRun]
  have hp := get_post_clean h "events:week" now
  by_cases hv : (c.get "events:week" now).1 ≠ JSVal.NULL
  · rw [if_pos hv]
    exact ⟨extractWeek_clean (get_val_clean h "events:week" now), hp⟩
  · rw [if_neg hv]
    dsimp only
    have hagg := getAllEventsInRange_clean hp now net
      (dayStart now + (if (jsGetDay (dayStart now) : Int) = 0 then -6 else 1 - (jsGetDay (dayStart now) : Int)) * 86400000)
      (dayStart now + (if (jsGetDay (dayStart now) : Int) = 0 then -6 else 1 - (jsGetDay (dayStart now) : Int)) * 86400000 + 7 * 86400000)
    cases hga : getAllEventsInRange (c.get "events:week" now).2 now net
      (dayStart now + (if (jsGetDay (dayStart now) : Int) = 0 then -6 else 1 - (jsGetDay (dayStart now) : Int)) * 86400000)
      (dayStart now + (if (jsGetDay (dayStart now) : Int) = 0 then -6 else 1 - (jsGetDay (dayStart now) : Int)) * 86400000 + 7 * 86400000) with
    | mk r c2 =>
      rw [hga] at hagg
      cases r with
      | error m => exact ⟨emptyWeek_clean, hagg.2⟩
      | ok evs =>
        exact ⟨bucketWeek_clean hagg.1,
          set_clean hagg.2 (JSVal.week (bucketWeek evs)) (bucketWeek_clean hagg.1) _ _ _⟩

/-- Cache preservation and cached-value cleanliness along the `getEvents`
routing step. -/
theorem getEventsRoute_clean {c : SimpleCache} (h : cacheCleanB c = true)
    (o : GetEventsOptions) (now : Int) :
    cacheCleanB (getEventsRoute o c now).2 = true
      ∧ (∀ v, (getEventsRoute o c now).1 = GERoute.cached v → valClean v = true) := by
  rw [getEventsRoute]
  by_cases h1 : ¬ (o.start_date.isSome && o.end_date.isSome && calIdsTruthy o.calendar_ids) = true
  · rw [if_pos h1]
    exact ⟨h, by intro v hv; cases hv⟩
  · rw [if_neg h1]
    by_cases h2 : (¬ optStrTruthy o.account_id && o.calendar_ids == some (CalIds.str "all")) = true
    · rw [if_pos h2]
      exact ⟨h, by intro v hv; cases hv⟩
    · rw [if_neg h2]
      have hp := get_post_clean h (getEventsKey o) now
      by_cases hv : (c.get (getEventsKey o) now).1 ≠ JSVal.NULL
      · rw [if_pos hv]
        refine ⟨hp, ?_⟩
        intro v hveq
        cases hveq
        exact get_val_clean h (getEventsKey o) now
      · rw [if_neg hv]
        by_cases h3 : (¬ calIdsTruthy o.calendar_ids
            || o.calendar_ids == some (CalIds.str "all")
            || o.calendar_ids == some (CalIds.str "ALL")) = true
        · rw [if_pos h3]
          exact ⟨hp, by intro v hveq; cases hveq⟩
        · rw [if_neg h3]
          cases o.calendar_ids with
          | none => exact ⟨hp, by intro v hveq; cases hveq⟩
          | some ci =>
            cases ci with
            | str s => exact ⟨hp, by intro v hveq; cases hveq⟩
            | arr l => exact ⟨hp, by intro v hveq; cases hveq⟩

theorem getEventsRun_clean {c : SimpleCache} (h : cacheCleanB c = true)
    (o : GetEventsOptions) (now : Int) (net : NetOracle) :
    eventsCleanE (getEventsRun o c now net).1 = true
      ∧ cacheCleanB (getEventsRun o c now net).2 = true := by
  rw [getEventsRun]
  have hroute := getEventsRoute_clean h o now
  cases hr : getEventsRoute o c now with
  | mk route c1 =>
    rw [hr] at hroute
    cases route with
    | errRequired => exact ⟨rfl, hroute.1⟩
    | errAmbiguous => exact ⟨rfl, hroute.1⟩
    | errNotString => exact ⟨rfl, hroute.1⟩
    | cached v =>
      exact ⟨extractEvents_clean (hroute.2 v rfl), hroute.1⟩
    | fanout s f =>
      dsimp only
      have hagg := getAllEventsInRange_clean hroute.1 now net s f
      cases hga : getAllEventsInRange c1 now net s f with
      | mk r c2 =>
        rw [hga] at hagg
        cases r with
        | error m => exact ⟨rfl, hagg.2⟩
        | ok evs => exact ⟨hagg.1, set_clean hagg.2 (JSVal.events evs) hagg.1 _ _ _⟩
    | single a s f ids =>
      dsimp only
      have hle := listEventsRun_clean hroute.1 a (some ids) (some s) (some f) now net
      cases hler : listEventsRun a (some ids) (some s) (some f) c1 now net with
      | mk r c2 =>
        rw [hler] at hle
        cases r with
        | error m => exact ⟨rfl, hle.2⟩
        | ok evs => exact ⟨hle.1, set_clean hle.2 (JSVal.events evs) hle.1 _ _ _⟩

theorem searchEventsCore_clean {evs : List Event} (query : String)
    (mr : Option Nat) (h : eventsClean evs = true) :
    eventsClean (searchEventsCore query mr evs) = true := by
  rw [searchEventsCore, eventsClean, List.all_eq_true]
  intro e he
  have := List.take_subset _ _ he
  exact eventsClean_mem h (List.mem_of_mem_filter this)

theorem searchEventsRun_clean {c : SimpleCache} (h : cacheCleanB c = true)
    (query : String) (o : SearchOptions) (now : Int) (net : NetOracle) :
    eventsCleanE (searchEventsRun query o c now net).1 = true
      ∧ cacheCleanB (searchEventsRun query o c now net).2 = true := by
  rw [searchEventsRun]
  have hp := get_post_clean h ("search:" ++ query ++ ":" ++ hashSearchOptions o) now
  by_cases hv : (c.get ("search:" ++ query ++ ":" ++ hashSearchOptions o) now).1 ≠ JSVal.NULL
  · rw [if_pos hv]
    exact ⟨extractEvents_clean (get_val_clean h _ now), hp⟩
  · rw [if_neg hv]
    dsimp only
    have hagg := getAllEventsInRange_clean hp now net
      (o.start_date.getD (now - 2592000000)) (o.end_date.getD (now + 2592000000))
    cases hga : getAllEventsInRange (c.get ("search:" ++ query ++ ":" ++ hashSearchOptions o) now).2 now net
        (o.start_date.getD (now - 2592000000)) (o.end_date.getD (now + 2592000000)) with
    | mk r c2 =>
      rw [hga] at hagg
      cases r with
      | error m => exact ⟨rfl, hagg.2⟩
      | ok evs =>
        exact ⟨searchEventsCore_clean query o.max_results hagg.1,
          set_clean hagg.2 (JSVal.events (searchEventsCore query o.max_results evs))
            (searchEventsCore_clean query o.max_results hagg.1) _ _ _⟩

/-! ### Shared concrete sample data for witnesses -/

/-- A plain event used by witnesses. -/
def evTeam : Event :=
  { id := "e1", title := some "Team Standup", description := some "daily sync"
    location := some "room 1", start := 259200000, calendarId := "cal-1", accountId := "acc1" }

/-- A sentinel "busy" placeholder event. -/
def evBusy : Event :=
  { id := "e2", title := some "Busy (via Morgen)", description := none
    location := none, start := 259200000, calendarId := "cal-1", accountId := "acc1" }

/-- A sentinel "untitled" placeholder event. -/
def evUntitled : Event :=
  { id := "e3", title := some "Untitled Event", description := none
    location := none, start := 259200000, calendarId := "cal-1", accountId := "acc1" }

/-- A sample calendar owned by `acc1`. -/
def cal1 : Calendar := { id := "cal-1", accountId := "acc1", account_id := none }

/-- A sample account. -/
def acc1 : Account := { id := "acc1" }

/-- The client's cache as built by the `MorgenAPIClient` constructor
(lines 15–18): `maxSize: 100`, `defaultTTL: 120`. -/
def clientCache : SimpleCache := mkSimpleCache (some 100) (some 120)

/-- A healthy oracle whose event query returns one real event and the two
sentinel placeholders. -/
def netW : NetOracle :=
  { calendarsResp := Except.ok [cal1]
    accountsResp := Except.ok [acc1]
    eventsResp := fun _ _ _ _ => Except.ok [evTeam, evBusy, evUntitled]
    createResp := Except.ok () }

/-- Sample `getEvents` options (explicit calendar list). -/
def optsW : GetEventsOptions :=
  { account_id := some "acc1", start_date := some 0, end_date := some 604800000
    calendar_ids := some (CalIds.str "cal-1") }

/-- Sample `searchEvents` options (all defaults). -/
def searchOptsW : SearchOptions :=
  { start_date := none, end_date := none, max_results := none }

/-- C1: for every event sequence returned by any read operation
(`listEvents`, `getAllEventsInRange`, `getTodayEvents`, the `getWeekEvents`
buckets, `getEvents`, `searchEvents`), no returned event has title exactly
"Busy (via Morgen)" or exactly "Untitled Event" — given the invariant
(established for every reachable state by the preservation lemmas above and
trivially true of the fresh cache) that cached values are sentinel-free. -/
theorem sentinel_exclusion_all_read_paths
    (c : SimpleCache) (now : Int) (net : NetOracle)
    (accountId calendarIds : Option String) (start fin : Option Int)
    (s0 f0 : Int) (o : GetEventsOptions) (query : String) (so : SearchOptions)
    (h : cacheCleanB c = true) :
    eventsCleanE (listEventsRun accountId calendarIds start fin c now net).1 = true
    ∧ eventsCleanE (getAllEventsInRange c now net s0 f0).1 = true
    ∧ eventsClean (getTodayEventsRun c now net).1 = true
    ∧ bucketsClean (getWeekEventsRun c now net).1 = true
    ∧ eventsCleanE (getEventsRun o c now net).1 = true
    ∧ eventsCleanE (searchEventsRun query so c now net).1 = true :=
  ⟨(listEventsRun_clean h accountId calendarIds start fin now net).1,
   (getAllEventsInRange_clean h now net s0 f0).1,
   (getTodayEventsRun_clean h now net).1,
   (getWeekEventsRun_clean h now net).1,
   (getEventsRun_clean h o now net).1,
   (searchEventsRun_clean h query so now net).1⟩

/-- Witness for C1 at a concrete client state and oracle (the upstream
response contains both sentinel placeholders; none survives any read). -/
theorem sentinel_exclusion_all_read_paths_witness :
    eventsCleanE (listEventsRun (some "acc1") (some "cal-1") (some 0) (some 604800000) clientCache 0 netW).1 = true
    ∧ eventsCleanE (getAllEventsInRange clientCache 0 netW 0 604800000).1 = true
    ∧ eventsClean (getTodayEventsRun clientCache 0 netW).1 = true
    ∧ bucketsClean (getWeekEventsRun clientCache 0 netW).1 = true
    ∧ eventsCleanE (getEventsRun optsW clientCache 0 netW).1 = true
    ∧ eventsCleanE (searchEventsRun "stand" searchOptsW clientCache 0 netW).1 = true :=
  sentinel_exclusion_all_read_paths clientCache 0 netW (some "acc1") (some "cal-1")
    (some 0) (some 604800000) 0 604800000 optsW "stand" searchOptsW (by decide)

/-! ### C2: partial-failure policy of the fan-out aggregator -/

theorem foldl_join_infix {x : String} (sep : String) :
    ∀ (ys : List String) (acc : String),
    (x.data <:+: acc.data ∨ x ∈ ys) →
    x.data <:+: (ys.foldl (fun a z => a ++ sep ++ z) acc).data := by
  intro ys
  induction ys with
  | nil =>
    intro acc h
    rcases h with h | h
    · exact h
    · exact absurd h (List.not_mem_nil x)
  | cons z zs ih =>
    intro acc h
    rw [List.foldl_cons]
    apply ih
    rcases h with h | h
    · left
      have hd : (acc ++ sep ++ z).data = acc.data ++ (sep.data ++ z.data) := by
        rw [String.data_append, String.data_append, List.append_assoc]
      rw [hd]
      exact h.trans (List.prefix_append acc.data (sep.data ++ z.data)).isInfix
    · rcases List.mem_cons.mp h with h | h
      · left
        have hd : (acc ++ sep ++ z).data = (acc.data ++ sep.data) ++ z.data := by
          rw [String.data_append, String.data_append]
        rw [hd, h]
        exact (List.suffix_append (acc.data ++ sep.data) z.data).isInfix
      · right; exact h

theorem mem_infix_jsJoin {x : String} {l : List String} (h : x ∈ l)
    (sep : String) : x.data <:+: (jsJoin sep l).data := by
  cases l with
  | nil => exact absurd h (List.not_mem_nil x)
  | cons y ys =>
    rw [jsJoin]
    apply foldl_join_infix sep ys y
    rcases List.mem_cons.mp h with h | h
    · left; rw [h]
    · right; exact h

theorem mem_specErrors_of_error {net : NetOracle} {cals : List Calendar}
    {s f : Int} {a m : String} (ha : a ∈ groupedAccountIds cals)
    (hq : perAccountQuery net cals s f a = Except.error m) :
    ("Account " ++ a ++ ": " ++ m) ∈ specErrors net cals s f := by
  rw [specErrors]
  exact List.mem_filterMap.mpr ⟨a, ha, by rw [hq]⟩

/-- C2: after all grouped accounts are attempted, `getAllEventsInRange`
fails exactly when the merged result set is empty and at least one
per-account error was recorded; each failed account contributes an
`Account <id>: <message>` record, every failed account id occurs in the
final error message, and otherwise the merged (possibly partial) result is
returned.  The hypotheses fix the account/calendar fetches that precede the
loop (nonempty in both cases). -/
theorem getAllEventsInRange_partial_failure
    (c : SimpleCache) (now : Int) (net : NetOracle)
    (accs : List Account) (c1 : SimpleCache) (cals : List Calendar)
    (c2 : SimpleCache) (s f : Int)
    (h1 : listAccountsRun c now net = (Except.ok accs, c1))
    (h2 : accs ≠ [])
    (h3 : listCalendarsRun c1 now net = (Except.ok cals, c2))
    (h4 : cals ≠ []) :
    (getAllEventsInRange c now net s f =
      (if specMerged net cals s f = [] ∧ specErrors net cals s f ≠ [] then
         Except.error ("Failed to fetch events from all accounts:\n"
           ++ jsJoin "\n" (specErrors net cals s f))
       else Except.ok (specMerged net cals s f), c2))
    ∧ (∀ a m, a ∈ groupedAccountIds cals →
        perAccountQuery net cals s f a = Except.error m →
        ("Account " ++ a ++ ": " ++ m) ∈ specErrors net cals s f)
    ∧ (∀ msg, aggregateCore net cals s f = Except.error msg →
        ∀ a m, a ∈ groupedAccountIds cals →
          perAccountQuery net cals s f a = Except.error m →
          strIncludes msg ("Account " ++ a ++ ":") = true) := by
  have hcore : aggregateCore net cals s f =
      (if specMerged net cals s f = [] ∧ specErrors net cals s f ≠ [] then
         Except.error ("Failed to fetch events from all accounts:\n"
           ++ jsJoin "\n" (specErrors net cals s f))
       else Except.ok (specMerged net cals s f)) := by
    rw [aggregateCore, aggregateLoop_eq]
    by_cases hm : specMerged net cals s f = []
    · by_cases he : specErrors net cals s f = []
      · have hc : ((specMerged net cals s f, specErrors net cals s f).1.isEmpty
            && !(specMerged net cals s f, specErrors net cals s f).2.isEmpty) = false := by
          simp [he]
        rw [hc]
        simp [hm, he]
      · have hc : ((specMerged net cals s f, specErrors net cals s f).1.isEmpty
            && !(specMerged net cals s f, specErrors net cals s f).2.isEmpty) = true := by
          simp [hm, List.isEmpty_iff, he]
        rw [hc]
        simp [hm, he]
    · have hc : ((specMerged net cals s f, specErrors net cals s f).1.isEmpty
          && !(specMerged net cals s f, specErrors net cals s f).2.isEmpty) = false := by
        simp [List.isEmpty_iff, hm]
      rw [hc]
      simp [hm]
  refine ⟨?_, ?_, ?_⟩
  · rw [getAllEventsInRange, h1]
    dsimp only
    have h2e : accs.isEmpty = false := by
      cases accs with
      | nil => exact absurd rfl h2
      | cons a as => rfl
    rw [h2e]
    simp only [Bool.false_eq_true, if_false]
    rw [h3]
    dsimp only
    have h4e : cals.isEmpty = false := by
      cases cals with
      | nil => exact absurd rfl h4
      | cons a as => rfl
    rw [h4e]
    simp only [Bool.false_eq_true, if_false]
    rw [hcore]
  · intro a m ha hq
    exact mem_specErrors_of_error ha hq
  · intro msg hmsg a m ha hq
    rw [hcore] at hmsg
    by_cases hcond : specMerged net cals s f = [] ∧ specErrors net cals s f ≠ []
    · rw [if_pos hcond] at hmsg
      have hmem := mem_specErrors_of_error ha hq
      have hinf : ("Account " ++ a ++ ": " ++ m).data <:+:
          (jsJoin "\n" (specErrors net cals s f)).data :=
        mem_infix_jsJoin hmem "\n"
      have hpre : ("Account " ++ a ++ ":").data <+: ("Account " ++ a ++ ": " ++ m).data := by
        refine ⟨(" " ++ m).data, ?_⟩
        simp only [String.data_append, List.append_assoc]
        rfl
      have hjoin : (jsJoin "\n" (specErrors net cals s f)).data <:+: msg.data := by
        have : msg = "Failed to fetch events from all accounts:\n"
            ++ jsJoin "\n" (specErrors net cals s f) := by
          cases hmsg; rfl
        rw [this, String.data_append]
        exact (List.suffix_append _ _).isInfix
      rw [strIncludes]
      exact decide_eq_true ((hpre.isInfix.trans hinf).trans hjoin)
    · rw [if_neg hcond] at hmsg
      cases hmsg

/-- Calendar of the first failing account. -/
def calA : Calendar := { id := "cal-a", accountId := "a1", account_id := none }

/-- Calendar of the second failing account. -/
def calB : Calendar := { id := "cal-b", accountId := "a2", account_id := none }

/-- First failing account. -/
def accA : Account := { id := "a1" }

/-- Second failing account. -/
def accB : Account := { id := "a2" }

/-- An oracle with two accounts whose event queries both throw. -/
def netC2 : NetOracle :=
  { calendarsResp := Except.ok [calA, calB]
    accountsResp := Except.ok [accA, accB]
    eventsResp := fun _ _ _ _ => Except.error "boom"
    createResp := Except.ok () }

/-- Witness for C2: with two accounts and both queries throwing, the
aggregation fails with a message enumerating both account ids. -/
theorem getAllEventsInRange_partial_failure_witness :
    (getAllEventsInRange clientCache 0 netC2 0 1).1 =
      Except.error "Failed to fetch events from all accounts:\nAccount a1: boom\nAccount a2: boom"
    ∧ ("Account a1: boom") ∈ specErrors netC2 [calA, calB] 0 1
    ∧ strIncludes "Failed to fetch events from all accounts:\nAccount a1: boom\nAccount a2: boom"
        ("Account a2:") = true := by
  have h := getAllEventsInRange_partial_failure clientCache 0 netC2 [accA, accB] _
    [calA, calB] _ 0 1 rfl (by decide) rfl (by decide)
  refine ⟨?_, ?_, ?_⟩
  · rw [h.1]; rfl
  · exact h.2.1 "a1" "boom" (by decide) rfl
  · exact h.2.2 "Failed to fetch events from all accounts:\nAccount a1: boom\nAccount a2: boom"
      rfl "a2" "boom" (by decide) rfl

/-! ### C4: insertion-order eviction and the size bound -/

theorem map_keys_update (l : List (String × CacheEntry)) (k : String) (e : CacheEntry) :
    (l.map (fun kv => if kv.1 = k then (k, e) else kv)).map Prod.fst = l.map Prod.fst := by
  induction l with
  | nil => rfl
  | cons x xs ih =>
    simp only [List.map_cons, List.cons.injEq]
    refine ⟨?_, ih⟩
    by_cases hk : x.1 = k
    · rw [if_pos hk]; exact hk.symm
    · rw [if_neg hk]

theorem mapSet_keys (l : List (String × CacheEntry)) (k : String) (e : CacheEntry) :
    (mapSet l k e).map Prod.fst =
      (if (l.map Prod.fst).contains k then l.map Prod.fst else l.map Prod.fst ++ [k]) := by
  rw [mapSet]
  by_cases hc : (l.map Prod.fst).contains k = true
  · rw [if_pos hc, if_pos hc]
    exact map_keys_update l k e
  · rw [if_neg hc, if_neg hc]
    simp

theorem mapSet_length (l : List (String × CacheEntry)) (k : String) (e : CacheEntry) :
    (mapSet l k e).length =
      (if (l.map Prod.fst).contains k then l.length else l.length + 1) := by
  rw [mapSet]
  by_cases hc : (l.map Prod.fst).contains k = true
  · rw [if_pos hc, if_pos hc, List.length_map]
  · rw [if_neg hc, if_neg hc, List.length_append, List.length_cons, List.length_nil]

theorem mapDelete_length_le (l : List (String × CacheEntry)) (k : String) :
    (mapDelete l k).length ≤ l.length :=
  List.length_filter_le _ l

theorem mapDelete_head_of_nodup {x : String × CacheEntry}
    {xs : List (String × CacheEntry)}
    (hnodup : ((x :: xs).map Prod.fst).Nodup) :
    mapDelete (x :: xs) x.1 = xs := by
  rw [mapDelete, List.filter_cons]
  have hd : (decide (x.1 ≠ x.1)) = false := by simp
  rw [hd]
  simp only [Bool.false_eq_true, if_false]
  apply List.filter_eq_self.mpr
  intro a ha
  rw [List.map_cons, List.nodup_cons] at hnodup
  refine decide_eq_true ?_
  intro heq
  exact hnodup.1 (heq ▸ List.mem_map_of_mem Prod.fst ha)

/-- C4: for every cache state within its bound and every `set`: when the
entry count is at or above `maxSize`, exactly the single oldest-inserted
entry is evicted before the new entry is stored (the resulting key sequence
is the old one minus its head, with `k` updated in place or appended); `set`
is total (it always succeeds), and after `set` — as well as after `get`,
`delete`, `cleanup` and `clear` — the cache holds at most `maxSize`
entries. -/
theorem cache_set_eviction_bound
    (c : SimpleCache) (k : String) (v : JSVal) (ttl now : Int)
    (k2 : String) (now2 : Int)
    (hnodup : (c.entries.map Prod.fst).Nodup)
    (hbound : c.entries.length ≤ c.maxSize)
    (hpos : 1 ≤ c.maxSize) :
    (c.maxSize ≤ c.entries.length →
      (c.set k v ttl now).entries.map Prod.fst =
        (if (c.entries.map Prod.fst).tail.contains k then (c.entries.map Prod.fst).tail
         else (c.entries.map Prod.fst).tail ++ [k]))
    ∧ (c.set k v ttl now).entries.length ≤ c.maxSize
    ∧ (c.get k2 now2).2.entries.length ≤ c.maxSize
    ∧ (c.delete k2).entries.length ≤ c.maxSize
    ∧ (c.cleanup now2).entries.length ≤ c.maxSize
    ∧ c.clear.entries.length ≤ c.maxSize := by
  have hne : c.maxSize ≤ c.entries.length → c.entries ≠ [] := by
    intro hs hnil
    rw [hnil] at hs
    simp only [List.length_nil, Nat.le_zero] at hs
    omega
  refine ⟨?_, ?_, ?_, ?_, ?_, ?_⟩
  · intro hs
    rw [SimpleCache.set]
    cases hen : c.entries with
    | nil => exact absurd hen (hne hs)
    | cons x xs =>
      rw [hen] at hs hnodup
      simp only [hen, hs, if_pos]
      rw [mapDelete_head_of_nodup hnodup, mapSet_keys, List.map_cons, List.tail_cons]
  · rw [SimpleCache.set]
    by_cases hs : c.maxSize ≤ c.entries.length
    · cases hen : c.entries with
      | nil => exact absurd hen (hne hs)
      | cons x xs =>
        rw [hen] at hs hnodup
        simp only [hen, hs, if_pos]
        rw [mapDelete_head_of_nodup hnodup, mapSet_length]
        rw [hen] at hbound
        by_cases hc : (xs.map Prod.fst).contains k = true
        · rw [if_pos hc]
          calc xs.length ≤ (x :: xs).length := by simp
            _ ≤ c.maxSize := hbound
        · rw [if_neg hc]
          simpa using hbound
    · simp only [hs, if_neg, if_false]
      rw [mapSet_length]
      by_cases hc : (c.entries.map Prod.fst).contains k = true
      · rw [if_pos hc]; exact hbound
      · rw [if_neg hc]; omega
  · rw [SimpleCache.get]
    cases hf : c.entries.find? (fun kv => kv.1 = k2) with
    | none => exact hbound
    | some kv =>
      dsimp only
      by_cases hex : kv.2.expiresAt < now2
      · rw [if_pos hex]
        exact le_trans (mapDelete_length_le c.entries k2) hbound
      · rw [if_neg hex]
        exact hbound
  · exact le_trans (mapDelete_length_le c.entries k2) hbound
  · exact le_trans (List.length_filter_le _ c.entries) hbound
  · simpa [SimpleCache.clear] using Nat.zero_le c.maxSize

/-- A concrete two-entry cache at capacity. -/
def cacheC4 : SimpleCache :=
  { entries :=
      [("a", { value := JSVal.events [evTeam], expiresAt := 100000, createdAt := 0 }),
       ("b", { value := JSVal.events [], expiresAt := 100000, createdAt := 1 })]
    maxSize := 2, defaultTTL := 300 }

/-- Witness for C4: inserting a third key into a full 2-entry cache evicts
exactly the oldest entry `a`, keeps `b`, appends `c`, and respects the
bound; the other operations respect it too. -/
theorem cache_set_eviction_bound_witness :
    (cacheC4.set "c" JSVal.NULL 5 2).entries.map Prod.fst = ["b", "c"]
    ∧ (cacheC4.set "c" JSVal.NULL 5 2).entries.length ≤ 2
    ∧ (cacheC4.get "a" 3).2.entries.length ≤ 2
    ∧ (cacheC4.delete "a").entries.length ≤ 2
    ∧ (cacheC4.cleanup 3).entries.length ≤ 2
    ∧ cacheC4.clear.entries.length ≤ 2 := by
  have h := cache_set_eviction_bound cacheC4 "c" JSVal.NULL 5 2 "a" 3
    (by decide) (by decide) (by decide)
  refine ⟨?_, h.2.1, h.2.2.1, h.2.2.2.1, h.2.2.2.2.1, h.2.2.2.2.2⟩
  rw [h.1 (by decide)]
  decide

/-! ### C10: a stored null is indistinguishable from absence -/

theorem find?_update_of_contains (l : List (String × CacheEntry)) (k : String)
    (e : CacheEntry) (hc : (l.map Prod.fst).contains k = true) :
    (l.map (fun kv => if kv.1 = k then (k, e) else kv)).find? (fun kv => kv.1 = k)
      = some (k, e) := by
  induction l with
  | nil => simp at hc
  | cons x xs ih =>
    simp only [List.map_cons]
    by_cases hk : x.1 = k
    · rw [if_pos hk]
      simp [List.find?_cons]
    · rw [if_neg hk]
      have hk2 : ¬ (k = x.1) := fun h => hk h.symm
      have hc2 : (xs.map Prod.fst).contains k = true := by
        simp only [List.map_cons, List.contains_cons] at hc
        simpa [hk2] using hc
      have hpa : (decide (x.1 = k)) = false := decide_eq_false hk
      rw [List.find?_cons, hpa]
      exact ih hc2

theorem find?_mapSet (l : List (String × CacheEntry)) (k : String) (e : CacheEntry) :
    (mapSet l k e).find? (fun kv => kv.1 = k) = some (k, e) := by
  rw [mapSet]
  by_cases hc : (l.map Prod.fst).contains k = true
  · rw [if_pos hc]
    exact find?_update_of_contains l k e hc
  · rw [if_neg hc]
    have hnotmem : k ∉ l.map Prod.fst := by simpa using hc
    have hnone : l.find? (fun kv => kv.1 = k) = none := by
      rw [List.find?_eq_none]
      intro kv hkv hk
      exact hnotmem ((of_decide_eq_true hk) ▸ List.mem_map_of_mem Prod.fst hkv)
    rw [List.find?_append, hnone]
    simp

/-- C10: immediately after `set(key, null, ttl)` and before expiry, `get`
returns the same `null` as for a missing key and `has` is `false`; a
missing key likewise yields `null`/`false`.  The cache cannot represent a
stored null distinguishably from absence. -/
theorem cache_null_indistinguishable
    (c : SimpleCache) (k : String) (ttl now now2 : Int)
    (c2 : SimpleCache) (k2 : String) (now3 : Int)
    (hfresh : now2 ≤ now + ttl * 1000)
    (hmiss : (c2.entries.map Prod.fst).contains k2 = false) :
    ((c.set k JSVal.NULL ttl now).get k now2).1 = JSVal.NULL
    ∧ ((c.set k JSVal.NULL ttl now).hasRes k now2).1 = false
    ∧ (c2.get k2 now3).1 = JSVal.NULL
    ∧ (c2.hasRes k2 now3).1 = false := by
  have hget : ((c.set k JSVal.NULL ttl now).get k now2).1 = JSVal.NULL := by
    rw [SimpleCache.set, SimpleCache.get]
    dsimp only
    rw [find?_mapSet]
    dsimp only
    have hex : ¬ (now + ttl * 1000 < now2) := by omega
    rw [if_neg hex]
  have hmget : (c2.get k2 now3).1 = JSVal.NULL := by
    rw [SimpleCache.get]
    have hnotmem : k2 ∉ c2.entries.map Prod.fst := by simpa using hmiss
    have hnone : c2.entries.find? (fun kv => kv.1 = k2) = none := by
      rw [List.find?_eq_none]
      intro kv hkv hk
      exact hnotmem ((of_decide_eq_true hk) ▸ List.mem_map_of_mem Prod.fst hkv)
    rw [hnone]
  refine ⟨hget, ?_, hmget, ?_⟩
  · rw [SimpleCache.hasRes]
    simp [hget]
  · rw [SimpleCache.hasRes]
    simp [hmget]

/-- Witness for C10 at a fresh client cache. -/
theorem cache_null_indistinguishable_witness :
    ((clientCache.set "x" JSVal.NULL 60 0).get "x" 1000).1 = JSVal.NULL
    ∧ ((clientCache.set "x" JSVal.NULL 60 0).hasRes "x" 1000).1 = false
    ∧ (clientCache.get "y" 0).1 = JSVal.NULL
    ∧ (clientCache.hasRes "y" 0).1 = false :=
  cache_null_indistinguishable clientCache "x" 60 0 1000 clientCache "y" 0
    (by omega) (by decide)

/-! ### C6: week bucketing shape and placement -/

/-- Reading one weekday bucket (`eventsByDay[dayName]`). -/
def lookupDay (m : List (String × List Event)) (d : String) : List Event :=
  match m.find? (fun kv => kv.1 = d) with
  | some kv => kv.2
  | none => []

/-- The event list of an aggregation outcome (empty on failure). -/
def eventsOfAgg : Except String (List Event) → List Event
  | Except.error _ => []
  | Except.ok l => l

theorem map_keys_update_week (l : List (String × List Event)) (d' : String)
    (e : Event) :
    (l.map (fun kv => if kv.1 = d' then (kv.1, kv.2 ++ [e]) else kv)).map Prod.fst
      = l.map Prod.fst := by
  induction l with
  | nil => rfl
  | cons x xs ih =>
    simp only [List.map_cons, List.cons.injEq]
    refine ⟨?_, ih⟩
    by_cases hk : x.1 = d'
    · rw [if_pos hk]
    · rw [if_neg hk]

theorem pushDay_keys (m : List (String × List Event)) (d' : String) (e : Event) :
    (pushDay m d' e).map Prod.fst = m.map Prod.fst := by
  rw [pushDay]
  by_cases hc : ((m.map Prod.fst).contains d') = true
  · rw [if_pos hc]
    exact map_keys_update_week m d' e
  · rw [if_neg hc]

theorem map_push_id (m : List (String × List Event)) (d' : String) (e : Event)
    (hc : (m.map Prod.fst).contains d' = false) :
    m.map (fun kv => if kv.1 = d' then (kv.1, kv.2 ++ [e]) else kv) = m := by
  induction m with
  | nil => rfl
  | cons x xs ih =>
    simp only [List.map_cons, List.contains_cons, Bool.or_eq_false_iff] at hc ⊢
    rw [List.cons.injEq]
    constructor
    · have hk : ¬ (x.1 = d') := by
        intro h
        rw [h] at hc
        simp at hc
      rw [if_neg hk]
    · exact ih hc.2

theorem lookupDay_pushDay (m : List (String × List Event)) (d' : String)
    (e : Event) (d : String) :
    lookupDay (pushDay m d' e) d =
      lookupDay m d ++
        (if d' = d ∧ (m.map Prod.fst).contains d = true then [e] else []) := by
  by_cases hc : ((m.map Prod.fst).contains d') = true
  · rw [pushDay, if_pos hc]
    induction m with
    | nil => simp at hc
    | cons x xs ih =>
      by_cases hxd : x.1 = d
      · rw [lookupDay, lookupDay]
        simp only [List.map_cons]
        rw [List.find?_cons, List.find?_cons]
        have hpa : (decide (x.1 = d)) = true := decide_eq_true hxd
        have hpb : (decide ((if x.1 = d' then (x.1, x.2 ++ [e]) else x).1 = d)) = true := by
          by_cases hk : x.1 = d'
          · rw [if_pos hk]; exact hpa
          · rw [if_neg hk]; exact hpa
        rw [hpa, hpb]
        have hcont : ((x.1 :: xs.map Prod.fst).contains d) = true := by
          rw [List.contains_cons]
          have : (d == x.1) = true := by
            rw [hxd]; exact beq_self_eq_true d
          rw [this, Bool.true_or]
        simp only [List.map_cons, hcont]
        by_cases hk : x.1 = d'
        · have hdd : d' = d := by rw [← hk, hxd]
          rw [if_pos hk]
          simp [hdd]
        · have hdd : ¬ (d' = d) := by
            intro h
            exact hk (by rw [hxd, h])
          rw [if_neg hk]
          simp [hdd]
      · rw [lookupDay, lookupDay]
        simp only [List.map_cons]
        rw [List.find?_cons, List.find?_cons]
        have hpa : (decide (x.1 = d)) = false := decide_eq_false hxd
        have hpb : (decide ((if x.1 = d' then (x.1, x.2 ++ [e]) else x).1 = d)) = false := by
          by_cases hk : x.1 = d'
          · rw [if_pos hk]; exact hpa
          · rw [if_neg hk]; exact hpa
        rw [hpa, hpb]
        have hcont : ((x.1 :: xs.map Prod.fst).contains d) = ((xs.map Prod.fst).contains d) := by
          rw [List.contains_cons]
          have : (d == x.1) = false := by
            refine beq_eq_false_iff_ne.mpr ?_
            intro h
            exact hxd h.symm
          rw [this, Bool.false_or]
        simp only [List.map_cons, hcont]
        by_cases hcxs : ((xs.map Prod.fst).contains d') = true
        · have := ih hcxs
          rw [lookupDay, lookupDay] at this
          exact this
        · have hid := map_push_id xs d' e
            (by cases h : (xs.map Prod.fst).contains d' with
                | true => exact absurd h hcxs
                | false => rfl)
          rw [hid]
          by_cases hdd : d' = d
          · rw [← hdd]
            cases h : (xs.map Prod.fst).contains d' with
            | true => exact absurd h hcxs
            | false => simp
          · simp [hdd]
  · rw [pushDay, if_neg hc]
    by_cases hdd : d' = d
    · rw [hdd] at hc
      have hcf : ((m.map Prod.fst).contains d) = false := by
        cases h : (m.map Prod.fst).contains d with
        | true => exact absurd h hc
        | false => rfl
      have hcond : ¬ (d' = d ∧ (m.map Prod.fst).contains d = true) := by
        intro h
        rw [hcf] at h
        exact Bool.false_ne_true h.2
      rw [if_neg hcond, List.append_nil]
    · have hcond : ¬ (d' = d ∧ (m.map Prod.fst).contains d = true) := fun h => hdd h.1
      rw [if_neg hcond, List.append_nil]

theorem foldl_pushDay_keys (evs : List Event) :
    ∀ (m : List (String × List Event)),
    ((evs.foldl (fun m e => pushDay m (weekdayName e.start) e) m).map Prod.fst)
      = m.map Prod.fst := by
  induction evs with
  | nil => intro m; rfl
  | cons e es ih =>
    intro m
    rw [List.foldl_cons, ih, pushDay_keys]

theorem jsGetDay_lt (t : Int) : jsGetDay t < 7 := by
  rw [jsGetDay]
  generalize t.fdiv 86400000 + 4 = x
  show (x % 7).toNat < 7
  omega

theorem weekdayName_mem (t : Int) : weekdayName t ∈ weekKeys := by
  rw [weekdayName]
  have h7 := jsGetDay_lt t
  have : jsGetDay t = 0 ∨ jsGetDay t = 1 ∨ jsGetDay t = 2 ∨ jsGetDay t = 3
      ∨ jsGetDay t = 4 ∨ jsGetDay t = 5 ∨ jsGetDay t = 6 := by omega
  rcases this with h | h | h | h | h | h | h <;> rw [h] <;> decide

theorem lookupDay_foldl (d : String) (evs : List Event) :
    ∀ (m : List (String × List Event)), m.map Prod.fst = weekKeys →
    lookupDay (evs.foldl (fun m e => pushDay m (weekdayName e.start) e) m) d
      = lookupDay m d ++ evs.filter (fun e => weekdayName e.start == d) := by
  induction evs with
  | nil => intro m _; simp
  | cons e es ih =>
    intro m hkeys
    rw [List.foldl_cons]
    have hkeys2 : (pushDay m (weekdayName e.start) e).map Prod.fst = weekKeys := by
      rw [pushDay_keys]; exact hkeys
    rw [ih _ hkeys2, lookupDay_pushDay, List.filter_cons]
    by_cases hwd : weekdayName e.start = d
    · have hcont : ((m.map Prod.fst).contains d) = true := by
        rw [hkeys]
        have : d ∈ weekKeys := hwd ▸ weekdayName_mem e.start
        exact List.elem_eq_true_of_mem this
      have hbeq : (weekdayName e.start == d) = true := by
        rw [hwd]; exact beq_self_eq_true d
      rw [hbeq]
      rw [if_pos (⟨hwd, hcont⟩ : weekdayName e.start = d ∧ (m.map Prod.fst).contains d = true)]
      simp [List.append_assoc]
    · have hbeq : (weekdayName e.start == d) = false := beq_eq_false_iff_ne.mpr hwd
      rw [hbeq]
      have hcond : ¬ (weekdayName e.start = d ∧ (m.map Prod.fst).contains d = true) :=
        fun h => hwd h.1
      rw [if_neg hcond, List.append_nil]
      simp

theorem emptyWeek_keys : emptyWeek.map Prod.fst = weekKeys := by decide

theorem lookupDay_emptyWeek (d : String) : lookupDay emptyWeek d = [] := by
  rw [lookupDay]
  cases hf : emptyWeek.find? (fun kv => kv.1 = d) with
  | none => rfl
  | some kv =>
    have hmem := List.mem_of_find?_eq_some hf
    have : ∀ kv_1 ∈ emptyWeek, kv_1.2 = ([] : List Event) := by decide
    exact this kv hmem

/-- C6: `getWeekEvents` always produces a mapping with exactly the seven
weekday keys in their literal order; each bucket `d` holds exactly the
aggregated events whose start instant falls on weekday `d` (in aggregation
order); and an internal failure yields the same shape with all seven
buckets empty instead of propagating the error. -/
theorem getWeekEvents_bucket_shape (agg : Except String (List Event))
    (d : String) (m : String) :
    ((getWeekEventsCore agg).map Prod.fst = weekKeys)
    ∧ (lookupDay (getWeekEventsCore agg) d
        = (eventsOfAgg agg).filter (fun e => weekdayName e.start == d))
    ∧ getWeekEventsCore (Except.error m) = emptyWeek := by
  refine ⟨?_, ?_, rfl⟩
  · cases agg with
    | error msg => exact emptyWeek_keys
    | ok evs =>
      rw [getWeekEventsCore, bucketWeek, foldl_pushDay_keys]
      exact emptyWeek_keys
  · cases agg with
    | error msg =>
      rw [getWeekEventsCore, eventsOfAgg, lookupDay_emptyWeek, List.filter_nil]
    | ok evs =>
      rw [getWeekEventsCore, bucketWeek, eventsOfAgg,
        lookupDay_foldl d evs emptyWeek emptyWeek_keys, lookupDay_emptyWeek,
        List.nil_append]

/-! ### C8: duration rounded to the nearest whole minute -/

theorem buildMorgenEvent_duration {e : EventInput} {cals : List Calendar}
    {body : MorgenEventData} (hb : buildMorgenEvent e cals = Except.ok body) :
    body.duration =
      toString (jsRoundMin (e.end_date.getD 0 - e.start_date.getD 0)) ++ "m" := by
  rw [buildMorgenEvent] at hb
  cases hf : cals.find? (fun cal => cal.id == e.calendar_id) with
  | none => rw [hf] at hb; cases hb
  | some cal =>
    rw [hf] at hb
    dsimp only at hb
    cases hb
    rfl

theorem jsRoundMin_nearest (d : Int) :
    ∀ n : Int, (d - 60000 * jsRoundMin d).natAbs ≤ (d - 60000 * n).natAbs := by
  intro n
  have h1 : 120000 * ((2 * d + 60000) / 120000) + (2 * d + 60000) % 120000
      = 2 * d + 60000 := Int.ediv_add_emod _ _
  have h2 : 0 ≤ (2 * d + 60000) % 120000 := Int.emod_nonneg _ (by norm_num)
  have h3 : (2 * d + 60000) % 120000 < 120000 := Int.emod_lt_of_pos _ (by norm_num)
  rw [jsRoundMin]
  omega

/-- C8: whenever `createEvent` succeeds, the duration field of the body
sent upstream is the integer count of minutes nearest to the wall-clock
span `end_date - start_date` (ties rounded half up, as `Math.round` does),
rendered as that integer followed by the unit marker `m`. -/
theorem createEvent_duration_nearest_minute
    (e : EventInput) (c : SimpleCache) (now : Int) (net : NetOracle)
    (s f : Int) (body : MorgenEventData)
    (hs : e.start_date = some s) (hf : e.end_date = some f)
    (hrun : (createEventRun e c now net).1 = Except.ok body) :
    body.duration = toString (jsRoundMin (f - s)) ++ "m"
    ∧ (∀ n : Int,
        (f - s - 60000 * jsRoundMin (f - s)).natAbs ≤ (f - s - 60000 * n).natAbs) := by
  refine ⟨?_, jsRoundMin_nearest (f - s)⟩
  rw [createEventRun] at hrun
  cases hreq : requiredFieldError e with
  | some m => rw [hreq] at hrun; cases hrun
  | none =>
    rw [hreq] at hrun
    cases hcal : listCalendarsRun c now net with
    | mk r1 c1 =>
      rw [hcal] at hrun
      dsimp only at hrun
      cases r1 with
      | error m => cases hrun
      | ok cals =>
        dsimp only at hrun
        cases hb : buildMorgenEvent e cals with
        | error m => rw [hb] at hrun; cases hrun
        | ok b =>
          rw [hb] at hrun
          cases hcr : net.createResp with
          | error m => rw [hcr] at hrun; cases hrun
          | ok u =>
            rw [hcr] at hrun
            have hbe : b = body := by
              cases hrun
              rfl
            rw [← hbe]
            have := buildMorgenEvent_duration hb
            rw [hs, hf] at this
            exact this

/-- A valid `createEvent` input spanning 90 seconds (1.5 minutes). -/
def eventInC8 : EventInput :=
  { title := "T", start_date := some 0, end_date := some 90000
    calendar_id := "cal-1", description := none, timezone := none }

/-- The body the model sends upstream for `eventInC8`. -/
def bodyC8 : MorgenEventData :=
  { title := "T", description := "", start := 0, duration := "2m"
    accountId := "acc1", calendarId := "cal-1", timeZone := "UTC" }

/-- Witness for C8: a 1.5-minute span rounds half-up to `2m`, and 2 minutes
is at least as near to 90 seconds as, e.g., 1 minute. -/
theorem createEvent_duration_nearest_minute_witness :
    bodyC8.duration = toString (jsRoundMin ((90000 : Int) - 0)) ++ "m"
    ∧ bodyC8.duration = "2m"
    ∧ (((90000 : Int) - 0) - 60000 * jsRoundMin ((90000 : Int) - 0)).natAbs
        ≤ (((90000 : Int) - 0) - 60000 * 1).natAbs := by
  have h := createEvent_duration_nearest_minute eventInC8 clientCache 0 netW
    0 90000 bodyC8 rfl rfl (by rfl)
  exact ⟨h.1, by decide, h.2 1⟩

/-! ### C9: the ambiguity check fires only for lowercase "all" -/

/-- C9: a `getEvents` call with `calendar_ids = "ALL"` and no `account_id`
is not rejected by the ambiguity validation (which compares against the
lowercase literal `"all"` only), yet `"ALL"` is still recognised by the
all-calendars test and the call proceeds to the full fan-out query. -/
theorem getEvents_ALL_ambiguity_bypass
    (oa : Option String) (osd oed : Option Int) (oci : Option CalIds)
    (c : SimpleCache) (now : Int) (net : NetOracle) (s f : Int)
    (hacc : oa = none) (hs : osd = some s) (hf : oed = some f)
    (hcid : oci = some (CalIds.str "ALL"))
    (hmiss : (c.get (getEventsKey ⟨oa, osd, oed, oci⟩) now).1 = JSVal.NULL) :
    (getEventsRoute ⟨oa, osd, oed, oci⟩ c now).1 = GERoute.fanout s f
    ∧ (getEventsRoute ⟨oa, osd, oed, oci⟩ c now).1 ≠ GERoute.errAmbiguous
    ∧ (getEventsRun ⟨oa, osd, oed, oci⟩ c now net).1
        = (getAllEventsInRange
            (c.get (getEventsKey ⟨oa, osd, oed, oci⟩) now).2 now net s f).1 := by
  subst hacc hs hf hcid
  have hpair : getEventsRoute ⟨none, some s, some f, some (CalIds.str "ALL")⟩ c now
      = (GERoute.fanout s f,
         (c.get (getEventsKey ⟨none, some s, some f, some (CalIds.str "ALL")⟩) now).2) := by
    cases hg : c.get (getEventsKey ⟨none, some s, some f, some (CalIds.str "ALL")⟩) now with
    | mk v c1 =>
      rw [hg] at hmiss
      have hv : v = JSVal.NULL := hmiss
      subst hv
      rw [getEventsRoute, hg]
      rfl
  refine ⟨by rw [hpair], by rw [hpair]; exact fun h => GERoute.noConfusion h, ?_⟩
  rw [getEventsRun, hpair]
  dsimp only
  cases hga : getAllEventsInRange
      (c.get (getEventsKey ⟨none, some s, some f, some (CalIds.str "ALL")⟩) now).2 now net s f with
  | mk r c2 =>
    cases r with
    | error m => rfl
    | ok evs => rfl

/-- Witness for C9 at a fresh cache and the healthy oracle. -/
theorem getEvents_ALL_ambiguity_bypass_witness :
    (getEventsRoute ⟨none, some 0, some 604800000, some (CalIds.str "ALL")⟩ clientCache 0).1
      = GERoute.fanout 0 604800000
    ∧ (getEventsRoute ⟨none, some 0, some 604800000, some (CalIds.str "ALL")⟩ clientCache 0).1
      ≠ GERoute.errAmbiguous
    ∧ (getEventsRun ⟨none, some 0, some 604800000, some (CalIds.str "ALL")⟩ clientCache 0 netW).1
      = (getAllEventsInRange
          (clientCache.get (getEventsKey ⟨none, some 0, some 604800000, some (CalIds.str "ALL")⟩) 0).2
          0 netW 0 604800000).1 :=
  getEvents_ALL_ambiguity_bypass none (some 0) (some 604800000)
    (some (CalIds.str "ALL")) clientCache 0 netW 0 604800000 rfl rfl rfl rfl (by rfl)

/-! ### C3: array-shaped `calendar_ids` and the cache-before-validation order -/

/-- A `getEvents` call with the supported comma-separated string. -/
def optsStr : GetEventsOptions :=
  { account_id := some "acc1", start_date := some 1, end_date := some 2
    calendar_ids := some (CalIds.str "a,b") }

/-- The same call with the structured-array caller mistake; its template-
literal rendering in the cache key coincides with the string form. -/
def optsArr : GetEventsOptions :=
  { account_id := some "acc1", start_date := some 1, end_date := some 2
    calendar_ids := some (CalIds.arr ["a", "b"]) }

/-- Counterexample to C3 as stated: `getEvents` consults the cache before
the string-type validation, and the array stringifies to the same cache key
as the comma-joined string.  After a successful string-form call, the
array-form call returns the cached events instead of failing with the
`ValidationError`.  (The poisoned state is reachable through the public
surface: one `getEvents` call with `calendar_ids = "a,b"`.) -/
theorem getEvents_array_cache_bypass_cex :
    (getEventsRun optsArr (getEventsRun optsStr clientCache 0 netW).2 1000 netW).1
      = Except.ok [evTeam]
    ∧ (getEventsRun optsArr (getEventsRun optsStr clientCache 0 netW).2 1000 netW).1
      ≠ Except.error "calendar_ids must be a string. Use \"all\" for all calendars or comma-separated IDs like \"cal-1,cal-2\"" := by
  have h1 : (getEventsRun optsArr (getEventsRun optsStr clientCache 0 netW).2 1000 netW).1
      = Except.ok [evTeam] := by rfl
  refine ⟨h1, ?_⟩
  rw [h1]
  exact fun h => Except.noConfusion h

/-- C3 amended: provided no cache entry exists under the derived key (in
particular on a fresh client), a `getEvents` call whose `calendar_ids` is
present but an array fails with the `ValidationError` naming the expected
comma-separated-string format, and its route never reaches the network. -/
theorem getEvents_array_validation_on_miss
    (oa : Option String) (osd oed : Option Int) (l : List String)
    (c : SimpleCache) (now : Int) (net : NetOracle)
    (hsd : osd.isSome = true) (hed : oed.isSome = true)
    (hmiss : (c.get (getEventsKey ⟨oa, osd, oed, some (CalIds.arr l)⟩) now).1
      = JSVal.NULL) :
    (getEventsRun ⟨oa, osd, oed, some (CalIds.arr l)⟩ c now net).1
      = Except.error "calendar_ids must be a string. Use \"all\" for all calendars or comma-separated IDs like \"cal-1,cal-2\""
    ∧ routeUsesNet (getEventsRoute ⟨oa, osd, oed, some (CalIds.arr l)⟩ c now).1 = false := by
  cases osd with
  | none => simp at hsd
  | some sv =>
    cases oed with
    | none => simp at hed
    | some fv =>
      have hpair : getEventsRoute ⟨oa, some sv, some fv, some (CalIds.arr l)⟩ c now
          = (GERoute.errNotString,
             (c.get (getEventsKey ⟨oa, some sv, some fv, some (CalIds.arr l)⟩) now).2) := by
        cases hg : c.get (getEventsKey ⟨oa, some sv, some fv, some (CalIds.arr l)⟩) now with
        | mk v c1 =>
          rw [hg] at hmiss
          have hv : v = JSVal.NULL := hmiss
          subst hv
          by_cases ho : optStrTruthy oa = true
          · rw [getEventsRoute, hg, ho]
            rfl
          · have ho2 : optStrTruthy oa = false := by
              revert ho
              cases optStrTruthy oa <;> simp
            rw [getEventsRoute, hg, ho2]
            rfl
      constructor
      · rw [getEventsRun, hpair]
      · rw [hpair]
        rfl

/-- Witness for the amended C3 on a fresh client cache. -/
theorem getEvents_array_validation_on_miss_witness :
    (getEventsRun optsArr clientCache 0 netW).1
      = Except.error "calendar_ids must be a string. Use \"all\" for all calendars or comma-separated IDs like \"cal-1,cal-2\""
    ∧ routeUsesNet (getEventsRoute optsArr clientCache 0).1 = false :=
  getEvents_array_validation_on_miss (some "acc1") (some 1) (some 2) ["a", "b"]
    clientCache 0 netW rfl rfl (by rfl)

/-! ### C5: createEvent cache invalidation and its frame -/

theorem get_hit_post_eq {c : SimpleCache} {k : String} {now : Int}
    (h : (c.get k now).1 ≠ JSVal.NULL) : (c.get k now).2 = c := by
  rw [SimpleCache.get] at h ⊢
  cases hf : c.entries.find? (fun kv => kv.1 = k) with
  | none => rfl
  | some kv =>
    rw [hf] at h
    dsimp only at h ⊢
    by_cases hex : kv.2.expiresAt < now
    · rw [if_pos hex] at h
      exact absurd rfl h
    · rw [if_neg hex]

/-- C5 amended: after every successful `createEvent` call, no cache key
beginning with `events:` or `search:` remains; and provided the `calendars`
entry was present and unexpired at call time, every other entry is left
exactly unchanged (same keys, values, expiries, and order).  Without that
proviso the internal `listCalendars` refresh inserts a `calendars` entry
and, at capacity, evicts the oldest entry — see the counterexample. -/
theorem createEvent_invalidation_frame
    (e : EventInput) (c : SimpleCache) (now : Int) (net : NetOracle)
    (body : MorgenEventData)
    (hrun : (createEventRun e c now net).1 = Except.ok body) :
    ((createEventRun e c now net).2.entries.all
        (fun kv => ¬ (strStarts kv.1 "events:" || strStarts kv.1 "search:")) = true)
    ∧ ((c.get "calendars" now).1 ≠ JSVal.NULL →
        (createEventRun e c now net).2.entries
          = c.entries.filter (fun kv =>
              ¬ (strStarts kv.1 "events:" || strStarts kv.1 "search:"))) := by
  rw [createEventRun] at hrun ⊢
  cases hreq : requiredFieldError e with
  | some m => rw [hreq] at hrun; cases hrun
  | none =>
    rw [hreq] at hrun
    (try dsimp only)
    (try dsimp only at hrun)
    cases hcal : listCalendarsRun c now net with
    | mk r1 c1 =>
      rw [hcal] at hrun
      (try dsimp only)
      (try dsimp only at hrun)
      cases r1 with
      | error m => cases hrun
      | ok cals =>
        (try dsimp only)
        (try dsimp only at hrun)
        cases hb : buildMorgenEvent e cals with
        | error m => rw [hb] at hrun; cases hrun
        | ok b =>
          rw [hb] at hrun
          (try dsimp only)
          (try dsimp only at hrun)
          cases hcr : net.createResp with
          | error m => rw [hcr] at hrun; cases hrun
          | ok u =>
            rw [hcr] at hrun
            (try dsimp only)
            (try dsimp only at hrun)
            constructor
            · rw [invalidateEventCaches, List.all_eq_true]
              intro kv hkv
              exact (List.mem_filter.mp hkv).2
            · intro hhit
              have hc1 : c1 = c := by
                have hpost := get_hit_post_eq hhit
                rw [listCalendarsRun] at hcal
                (try dsimp only at hcal)
                rw [if_pos hhit] at hcal
                have hsnd := congrArg Prod.snd hcal
                dsimp only at hsnd
                rw [← hsnd, hpost]
              rw [invalidateEventCaches, hc1]

/-- One of the 99 `events:range:*` keys filling the cache to capacity. -/
def rangeKeyI (i : Nat) : String := "events:range:k" ++ toString i

/-- A reachable client cache at capacity 100 whose oldest entry is
`accounts` and which holds no `calendars` entry: one `listAccounts` call
followed by 99 distinct explicit-calendar `getEvents` calls produces this
shape. -/
def cacheC5 : SimpleCache :=
  { entries :=
      ("accounts", { value := JSVal.accounts [acc1], expiresAt := 3600000, createdAt := 0 })
        :: (List.range 99).map (fun i =>
            (rangeKeyI i, { value := JSVal.events [], expiresAt := 60000, createdAt := 0 }))
    maxSize := 100, defaultTTL := 120 }

/-- Counterexample to C5 as stated: on `cacheC5` a successful `createEvent`
removes the `accounts` entry — a key that matches neither invalidated
namespace — because the internal `listCalendars` miss inserts `calendars`
into a full cache and capacity eviction discards the oldest entry,
`accounts`. -/
theorem createEvent_evicts_accounts_cex :
    ((cacheC5.entries.map Prod.fst).contains "accounts" = true)
    ∧ ((strStarts "accounts" "events:" || strStarts "accounts" "search:") = false)
    ∧ ((createEventRun eventInC8 cacheC5 0 netW).1 = Except.ok bodyC8)
    ∧ (((createEventRun eventInC8 cacheC5 0 netW).2.entries.map Prod.fst).contains "accounts"
        = false) := by
  refine ⟨by decide, by decide, by rfl, by decide⟩

/-- A client cache populated with metadata and event/search entries, with
`calendars` present and unexpired. -/
def cacheC5W : SimpleCache :=
  { entries :=
      [("accounts", { value := JSVal.accounts [acc1], expiresAt := 3600000, createdAt := 0 }),
       ("calendars", { value := JSVal.calendars [cal1], expiresAt := 3600000, createdAt := 0 }),
       ("events:today", { value := JSVal.events [evTeam], expiresAt := 120000, createdAt := 0 }),
       ("search:x:", { value := JSVal.events [], expiresAt := 30000, createdAt := 0 })]
    maxSize := 100, defaultTTL := 120 }

/-- Witness for the amended C5: with `calendars` cached, a successful
`createEvent` removes exactly the `events:*`/`search:*` entries and leaves
`calendars`/`accounts` untouched. -/
theorem createEvent_invalidation_frame_witness :
    ((createEventRun eventInC8 cacheC5W 0 netW).2.entries.all
        (fun kv => ¬ (strStarts kv.1 "events:" || strStarts kv.1 "search:")) = true)
    ∧ (createEventRun eventInC8 cacheC5W 0 netW).2.entries
        = cacheC5W.entries.filter (fun kv =>
            ¬ (strStarts kv.1 "events:" || strStarts kv.1 "search:")) := by
  have h := createEvent_invalidation_frame eventInC8 cacheC5W 0 netW bodyC8 (by rfl)
  exact ⟨h.1, h.2 (by decide)⟩

/-! ### C7: search as filter-and-truncate -/

theorem getAllEventsInRange_ok_clean {c : SimpleCache} {now : Int}
    {net : NetOracle} {s f : Int} {evs : List Event} {c2 : SimpleCache}
    (h : getAllEventsInRange c now net s f = (Except.ok evs, c2)) :
    eventsClean evs = true := by
  rw [getAllEventsInRange] at h
  cases hacc : listAccountsRun c now net with
  | mk r1 c1 =>
    rw [hacc] at h
    (try dsimp only at h)
    cases r1 with
    | error m => cases h
    | ok accs =>
      (try dsimp only at h)
      by_cases hae : accs.isEmpty = true
      · rw [if_pos hae] at h
        cases h
      · rw [if_neg hae] at h
        cases hcal : listCalendarsRun c1 now net with
        | mk r2 c3 =>
          rw [hcal] at h
          (try dsimp only at h)
          cases r2 with
          | error m => cases h
          | ok cals =>
            (try dsimp only at h)
            by_cases hce : cals.isEmpty = true
            · rw [if_pos hce] at h
              cases h
            · rw [if_neg hce] at h
              have hclean := aggregateCore_clean net cals s f
              have hfst := congrArg Prod.fst h
              dsimp only at hfst
              rw [hfst] at hclean
              exact hclean

theorem searchEventsCore_eq_spec {evs : List Event} (query : String)
    (mr : Option Nat) (h : eventsClean evs = true) :
    searchEventsCore query mr evs
      = (evs.filter (specSearchMatch query)).take (effMaxResults mr) := by
  rw [searchEventsCore]
  have hf : evs.filter (fun e =>
      (e.title != some "Busy (via Morgen)" && e.title != some "Untitled Event")
        && (strIncludes (strLower (e.title.getD "")) (strLower query)
          || strIncludes (strLower (e.description.getD "")) (strLower query)
          || strIncludes (strLower (e.location.getD "")) (strLower query)))
      = evs.filter (specSearchMatch query) := by
    apply List.filter_congr
    intro e he
    have hns : noSentinelB e = true := eventsClean_mem h he
    rw [noSentinelB] at hns
    rw [hns, Bool.true_and]
    rfl
  rw [hf]

/-- C7 amended: on a cache miss, `searchEvents` returns exactly the
aggregated events of the requested range — defaulting to
[now − 30 days, now + 30 days) — whose lowercased title, description or
location contains the lowercased query (any one field sufficing), truncated
to the first `maxResults` entries, where an absent or zero `maxResults`
falls back to the default 20. -/
theorem searchEvents_filter_truncate
    (query : String) (o : SearchOptions) (c : SimpleCache) (now : Int)
    (net : NetOracle) (evs : List Event) (c2 : SimpleCache)
    (hmiss : (c.get ("search:" ++ query ++ ":" ++ hashSearchOptions o) now).1
      = JSVal.NULL)
    (hagg : getAllEventsInRange
        (c.get ("search:" ++ query ++ ":" ++ hashSearchOptions o) now).2 now net
        (o.start_date.getD (now - 2592000000)) (o.end_date.getD (now + 2592000000))
      = (Except.ok evs, c2)) :
    (searchEventsRun query o c now net).1
      = Except.ok ((evs.filter (specSearchMatch query)).take (effMaxResults o.max_results))
    ∧ effMaxResults none = 20 ∧ effMaxResults (some 0) = 20 := by
  refine ⟨?_, rfl, rfl⟩
  rw [searchEventsRun]
  have hnn : ¬ ((c.get ("search:" ++ query ++ ":" ++ hashSearchOptions o) now).1
      ≠ JSVal.NULL) := fun h => h hmiss
  rw [if_neg hnn]
  (try dsimp only)
  rw [hagg]
  (try dsimp only)
  rw [searchEventsCore_eq_spec query o.max_results (getAllEventsInRange_ok_clean hagg)]

/-- Witness for the amended C7: "Team Standup" is found by the
case-insensitive substring query "stand" and not by "xyz". -/
theorem searchEvents_filter_truncate_witness :
    (searchEventsRun "stand" searchOptsW clientCache 0 netW).1 = Except.ok [evTeam]
    ∧ (searchEventsRun "xyz" searchOptsW clientCache 0 netW).1 = Except.ok []
    ∧ effMaxResults none = 20 ∧ effMaxResults (some 0) = 20 := by
  have h1 := searchEvents_filter_truncate "stand" searchOptsW clientCache 0 netW
    [evTeam] _ (by rfl) (by rfl)
  have h2 := searchEvents_filter_truncate "xyz" searchOptsW clientCache 0 netW
    [evTeam] _ (by rfl) (by rfl)
  refine ⟨?_, ?_, rfl, rfl⟩
  · rw [h1.1]; rfl
  · rw [h2.1]; rfl

/-- Counterexample to C7 as stated: with `max_results = 0` the claim's
truncation to the first 0 entries demands the empty result, but the source
treats 0 as falsy (`options.max_results || 20`) and returns up to 20
events. -/
theorem searchEvents_maxResults_zero_cex :
    searchEventsCore "team" (some 0) [evTeam] = [evTeam]
    ∧ searchEventsCore "team" (some 0) [evTeam]
        ≠ ([evTeam].filter (specSearchMatch "team")).take 0 := by
  refine ⟨by decide, ?_⟩
  intro h
  have : ([evTeam] : List Event) = [] := by
    calc ([evTeam] : List Event) = searchEventsCore "team" (some 0) [evTeam] := by decide
      _ = ([evTeam].filter (specSearchMatch "team")).take 0 := h
      _ = [] := by decide
  cases this
